import Mathlib

/-!
# Identity recognition system: the vector-matching authentication core

A shallow embedding of `backend/Routes/authRoutes.js`:

* `calculateSimilarity` (lines 6-23), the cosine similarity of two feature vectors;
* the `/register` handler (lines 26-60);
* the `/login` handler (lines 63-103), a linear scan for the best match above the threshold;
* the `/users/:username` delete handler (lines 117-132).

## Number model

JavaScript numbers are modelled as reals extended with `NaN` and the two infinities, in two
arithmetics.

* Exact arithmetic: the elements of a feature vector are finite reals, sums, products and
  square roots are computed exactly, and the only operation of the source that leaves the
  finite numbers is the unguarded division of line 21.  The statements on the guards, on the
  order of the scan, on the zero vector and on the range in exact real arithmetic are made on
  it; their proofs use no property that rounding would break.
* Binary64 arithmetic: every operation is computed exactly and then rounded to the nearest
  binary64 number, ties to even, with overflow and gradual underflow (`round64`,
  `calculateSimilarity64`, `login64`).  The statements that speak of floating-point tolerance
  are made on it.

Because the arithmetic is real arithmetic, the functions below are not executable; concrete
evaluations are carried out by rewriting.
-/

open Classical

noncomputable section

/-! ## JavaScript numbers -/

/-- A JavaScript number: a finite real, `NaN`, `Infinity` or `-Infinity`. -/
inductive JSNumber where
  | finite (x : ℝ)
  | nan
  | posInf
  | negInf

namespace JSNumber

/-- The JavaScript division `x / y` of two finite numbers (the zero denominators of the source
are `+0`): `0 / 0` is `NaN`, a non-zero number over zero is an infinity of its sign. -/
def div (x y : ℝ) : JSNumber :=
  if y = 0 then
    if x = 0 then nan else if 0 < x then posInf else negInf
  else finite (x / y)

/-- The JavaScript comparison `x > y`: false as soon as one side is `NaN`. -/
def gt : JSNumber → JSNumber → Prop
  | finite x, finite y => y < x
  | posInf, finite _ => True
  | posInf, negInf => True
  | finite _, negInf => True
  | _, _ => False

/-- The JavaScript comparison `x <= y`: false as soon as one side is `NaN`. -/
def le : JSNumber → JSNumber → Prop
  | finite x, finite y => x ≤ y
  | negInf, finite _ => True
  | negInf, negInf => True
  | negInf, posInf => True
  | finite _, posInf => True
  | posInf, posInf => True
  | _, _ => False

end JSNumber

/-! ## The similarity metric -/

/-- The three accumulators of the loop of `calculateSimilarity`. -/
structure SimAcc where
  dotProduct : ℝ
  norm1 : ℝ
  norm2 : ℝ

/-- One iteration of the loop of lines 15-19 at the pair `(features1[i], features2[i])`. -/
def simStep (acc : SimAcc) (p : ℝ × ℝ) : SimAcc :=
  ⟨acc.dotProduct + p.1 * p.2, acc.norm1 + p.1 * p.1, acc.norm2 + p.2 * p.2⟩

/-- The loop of lines 15-19, run from given accumulators over the pairs of components. -/
def simLoop (acc : SimAcc) (ps : List (ℝ × ℝ)) : SimAcc :=
  ps.foldl simStep acc

/-- The function `calculateSimilarity(features1, features2)` of lines 6-23. -/
def calculateSimilarity (features1 features2 : List ℝ) : JSNumber :=
  if features1.length ≠ features2.length then JSNumber.finite 0
  else
    let acc := simLoop ⟨0, 0, 0⟩ (features1.zip features2)
    JSNumber.div acc.dotProduct (Real.sqrt acc.norm1 * Real.sqrt acc.norm2)

/-! ## Request values and the enrollment store -/

/-- A value of a JSON request body as the handlers inspect it.  The elements of an array are
finite numbers: arrays with other elements are outside the model. -/
inductive JSValue where
  | undefined
  | null
  | bool (b : Bool)
  | number (x : ℝ)
  | string (s : String)
  | object
  | array (xs : List ℝ)

namespace JSValue

/-- JavaScript truthiness, the negation of `!v`: `undefined`, `null`, `false`, `0` and the empty
string are falsy, everything else, every array included, is truthy. -/
def truthy : JSValue → Prop
  | undefined => False
  | null => False
  | bool b => b = true
  | number x => x ≠ 0
  | string s => s ≠ ""
  | object => True
  | array _ => True

/-- The test `Array.isArray(v)`. -/
def isArray : JSValue → Prop
  | array _ => True
  | _ => False

/-- The elements of an array value (no elements for a value that is not an array). -/
def elements : JSValue → List ℝ
  | array xs => xs
  | _ => []

end JSValue

/-- Modelled from the spec: the `User` model (`../Models/User`, not among the sources), the
Enrollment of the data model: username, reference image, feature vector and creation
timestamp.  The store is the list of its documents in iteration order. -/
structure User where
  username : String
  imageData : String
  features : List ℝ
  createdAt : Nat

/-! ## The login handler -/

/-- The responses of the `/login` handler: 200 with username and similarity (`Accepted`),
400 "Valid features array is required" (`InvalidInput`), 401 "Face not recognized"
(`Rejected`). -/
inductive LoginResponse where
  | success (username : String) (similarity : JSNumber)
  | badRequest
  | unauthorized

/-- The constant `threshold` of line 78. -/
def threshold : ℝ := 0.7

/-- The variables `bestMatch` and `bestSimilarity` of lines 76-77. -/
structure LoginState where
  bestMatch : Option User
  bestSimilarity : JSNumber

/-- The body of the loop of lines 81-88 for one user. -/
def loginStep (features : List ℝ) (st : LoginState) (user : User) : LoginState :=
  let similarity := calculateSimilarity features user.features
  if similarity.gt st.bestSimilarity ∧ similarity.gt (JSNumber.finite threshold) then
    ⟨some user, similarity⟩
  else st

/-- The scan of lines 76-88 over the users in iteration order. -/
def loginScan (features : List ℝ) (users : List User) : LoginState :=
  users.foldl (loginStep features) ⟨none, JSNumber.finite 0⟩

/-- The `/login` handler of lines 63-98 on the request value `features` and the result `users`
of `User.find({})`. -/
def login (features : JSValue) (users : List User) : LoginResponse :=
  if ¬ features.truthy ∨ ¬ features.isArray then LoginResponse.badRequest
  else
    let st := loginScan features.elements users
    match st.bestMatch with
    | some user => LoginResponse.success user.username st.bestSimilarity
    | none => LoginResponse.unauthorized

/-! ## The register and delete handlers -/

/-- The responses of the `/register` handler: 201 with the username, 400 "Username, image
data, and features are required" (`MissingField`), 400 "Username already exists"
(`DuplicateUsername`). -/
inductive RegisterResponse where
  | created (username : String)
  | fieldsRequired
  | usernameExists
  deriving DecidableEq

/-- The query `User.findOne({ username })`: the first document with that username. -/
def findOne (username : String) (users : List User) : Option User :=
  users.find? (fun user => user.username == username)

/-- The `/register` handler of lines 26-55 on the request fields (`none` for an absent field),
the time `now` of the request and the store; it returns the response and the store
afterwards.  A saved document goes to the end of the iteration order. -/
def register (username imageData : Option String) (features : Option (List ℝ)) (now : Nat)
    (users : List User) : RegisterResponse × List User :=
  match username, imageData, features with
  | some u, some img, some f =>
    if u = "" ∨ img = "" then (RegisterResponse.fieldsRequired, users)
    else
      match findOne u users with
      | some _ => (RegisterResponse.usernameExists, users)
      | none => (RegisterResponse.created u, users ++ [⟨u, img, f, now⟩])
  | _, _, _ => (RegisterResponse.fieldsRequired, users)

/-- The responses of the delete handler: 200 "User deleted successfully", 404 "User not
found" (`NotFound`). -/
inductive DeleteResponse where
  | deleted
  | notFound
  deriving DecidableEq

/-- The delete handler of lines 117-127: `User.findOneAndDelete({ username })` removes the first
document with that username. -/
def deleteUser (username : String) (users : List User) : DeleteResponse × List User :=
  match findOne username users with
  | some _ => (DeleteResponse.deleted, users.eraseP (fun user => user.username == username))
  | none => (DeleteResponse.notFound, users)

/-- Modelled from the spec: the invariant of the enrollment store, "usernames are unique across
the store (enforced at registration)"; the `User` model that declares the store is not among
the sources. -/
def uniqueUsernames (users : List User) : Prop :=
  (users.map User.username).Nodup

/-! ## Binary64 arithmetic

The claims that speak of floating-point tolerance are settled on the arithmetic the source
runs on: every operation is computed exactly and then rounded to the nearest binary64 number,
ties to even, with overflow to an infinity and gradual underflow.  The sign of zero is not
modelled: the zero denominators of line 21 are products of square roots, hence `+0`. -/

/-- Rounding of a real to the nearest integer, ties to the even one. -/
def roundEven (y : ℝ) : ℤ :=
  if Int.fract y = 1 / 2 then (if Even ⌊y⌋ then ⌊y⌋ else ⌊y⌋ + 1) else round y

/-- The binary exponent of the binary64 numbers next to `x`: that of `x`, not below the least
normal exponent `-1022`. -/
def exponent64 (x : ℝ) : ℤ :=
  max (Int.log 2 |x|) (-1022)

/-- The spacing of the binary64 numbers next to `x`: 53 significant bits. -/
def ulp64 (x : ℝ) : ℝ :=
  (2 : ℝ) ^ (exponent64 x - 52)

/-- Rounding of a real to binary64, to nearest, ties to even: a result of magnitude `2^1024`
or more is an infinity. -/
def round64 (x : ℝ) : JSNumber :=
  if (2 : ℝ) ^ (1024 : ℤ) ≤ (roundEven (x / ulp64 x) : ℝ) * ulp64 x then JSNumber.posInf
  else if (roundEven (x / ulp64 x) : ℝ) * ulp64 x ≤ -(2 : ℝ) ^ (1024 : ℤ) then JSNumber.negInf
  else JSNumber.finite ((roundEven (x / ulp64 x) : ℝ) * ulp64 x)

namespace JSNumber

/-- The JavaScript addition `x + y`. -/
def add64 : JSNumber → JSNumber → JSNumber
  | finite x, finite y => round64 (x + y)
  | nan, _ => nan
  | _, nan => nan
  | posInf, negInf => nan
  | negInf, posInf => nan
  | posInf, _ => posInf
  | _, posInf => posInf
  | negInf, _ => negInf
  | _, negInf => negInf

/-- The JavaScript multiplication `x * y`. -/
def mul64 : JSNumber → JSNumber → JSNumber
  | finite x, finite y => round64 (x * y)
  | nan, _ => nan
  | _, nan => nan
  | posInf, finite y => if y = 0 then nan else if 0 < y then posInf else negInf
  | negInf, finite y => if y = 0 then nan else if 0 < y then negInf else posInf
  | finite x, posInf => if x = 0 then nan else if 0 < x then posInf else negInf
  | finite x, negInf => if x = 0 then nan else if 0 < x then negInf else posInf
  | posInf, posInf => posInf
  | posInf, negInf => negInf
  | negInf, posInf => negInf
  | negInf, negInf => posInf

/-- The function `Math.sqrt(x)`. -/
def sqrt64 : JSNumber → JSNumber
  | finite x => if x < 0 then nan else round64 (Real.sqrt x)
  | posInf => posInf
  | negInf => nan
  | nan => nan

/-- The JavaScript division `x / y`; a zero denominator is `+0`. -/
def div64 : JSNumber → JSNumber → JSNumber
  | finite x, finite y =>
    if y = 0 then (if x = 0 then nan else if 0 < x then posInf else negInf)
    else round64 (x / y)
  | nan, _ => nan
  | _, nan => nan
  | finite _, posInf => finite 0
  | finite _, negInf => finite 0
  | posInf, finite y => if 0 ≤ y then posInf else negInf
  | negInf, finite y => if 0 ≤ y then negInf else posInf
  | posInf, posInf => nan
  | posInf, negInf => nan
  | negInf, posInf => nan
  | negInf, negInf => nan

end JSNumber

/-- The three accumulators of the loop of `calculateSimilarity`, as binary64 numbers. -/
structure SimAcc64 where
  dotProduct : JSNumber
  norm1 : JSNumber
  norm2 : JSNumber

/-- One iteration of the loop of lines 15-19 in binary64: each product is rounded, then each
sum. -/
def simStep64 (acc : SimAcc64) (p : ℝ × ℝ) : SimAcc64 :=
  ⟨acc.dotProduct.add64 ((JSNumber.finite p.1).mul64 (JSNumber.finite p.2)),
    acc.norm1.add64 ((JSNumber.finite p.1).mul64 (JSNumber.finite p.1)),
    acc.norm2.add64 ((JSNumber.finite p.2).mul64 (JSNumber.finite p.2))⟩

/-- The loop of lines 15-19 in binary64. -/
def simLoop64 (acc : SimAcc64) (ps : List (ℝ × ℝ)) : SimAcc64 :=
  ps.foldl simStep64 acc

/-- The function `calculateSimilarity(features1, features2)` of lines 6-23 in binary64; the
elements of the vectors are the values of finite binary64 numbers. -/
def calculateSimilarity64 (features1 features2 : List ℝ) : JSNumber :=
  if features1.length ≠ features2.length then JSNumber.finite 0
  else
    let acc := simLoop64 ⟨JSNumber.finite 0, JSNumber.finite 0, JSNumber.finite 0⟩
      (features1.zip features2)
    acc.dotProduct.div64 (acc.norm1.sqrt64.mul64 acc.norm2.sqrt64)

/-- The value of `norm1` after the loop of `calculateSimilarity(a, a)`: the computed squared
norm of `a`. -/
def squaredNorm64 (a : List ℝ) : JSNumber :=
  (simLoop64 ⟨JSNumber.finite 0, JSNumber.finite 0, JSNumber.finite 0⟩ (a.zip a)).norm1

/-- The constant `threshold` of line 78 as the binary64 number that the literal `0.7`
denotes. -/
def threshold64 : JSNumber :=
  round64 0.7

/-- The body of the loop of lines 81-88 for one user, in binary64. -/
def loginStep64 (features : List ℝ) (st : LoginState) (user : User) : LoginState :=
  let similarity := calculateSimilarity64 features user.features
  if similarity.gt st.bestSimilarity ∧ similarity.gt threshold64 then
    ⟨some user, similarity⟩
  else st

/-- The scan of lines 76-88 over the users in iteration order, in binary64. -/
def loginScan64 (features : List ℝ) (users : List User) : LoginState :=
  users.foldl (loginStep64 features) ⟨none, JSNumber.finite 0⟩

/-- The `/login` handler of lines 63-98 in binary64. -/
def login64 (features : JSValue) (users : List User) : LoginResponse :=
  if ¬ features.truthy ∨ ¬ features.isArray then LoginResponse.badRequest
  else
    let st := loginScan64 features.elements users
    match st.bestMatch with
    | some user => LoginResponse.success user.username st.bestSimilarity
    | none => LoginResponse.unauthorized

/-! ## Facts about the similarity metric -/

/-- The guard of lines 7-9. -/
theorem calculateSimilarity_of_length_ne (a b : List ℝ) (h : a.length ≠ b.length) :
    calculateSimilarity a b = JSNumber.finite 0 := by
  unfold calculateSimilarity
  rw [if_pos h]

/-! ### The loop of the similarity metric -/

theorem simLoop_nil (acc : SimAcc) : simLoop acc [] = acc := rfl

theorem simLoop_cons (acc : SimAcc) (p : ℝ × ℝ) (ps : List (ℝ × ℝ)) :
    simLoop acc (p :: ps) = simLoop (simStep acc p) ps := rfl

/-- One step of the Cauchy-Schwarz inequality on the accumulators. -/
theorem cauchy_step (d n1 n2 x y : ℝ) (h1 : 0 ≤ n1) (h2 : 0 ≤ n2) (h : d ^ 2 ≤ n1 * n2) :
    (d + x * y) ^ 2 ≤ (n1 + x * x) * (n2 + y * y) := by
  have hsq : (2 * d * x * y) ^ 2 ≤ (n1 * y ^ 2 + n2 * x ^ 2) ^ 2 := by
    have hxy : 0 ≤ x ^ 2 * y ^ 2 * (n1 * n2 - d ^ 2) :=
      mul_nonneg (mul_nonneg (sq_nonneg x) (sq_nonneg y)) (sub_nonneg.2 h)
    nlinarith [sq_nonneg (n1 * y ^ 2 - n2 * x ^ 2)]
  have hnn : 0 ≤ n1 * y ^ 2 + n2 * x ^ 2 := by positivity
  have hle : 2 * d * x * y ≤ n1 * y ^ 2 + n2 * x ^ 2 := (abs_le_of_sq_le_sq' hsq hnn).2
  nlinarith

/-- The loop keeps both norms non-negative and the Cauchy-Schwarz inequality between the
accumulators. -/
theorem simLoop_cauchy (ps : List (ℝ × ℝ)) (acc : SimAcc) (h1 : 0 ≤ acc.norm1)
    (h2 : 0 ≤ acc.norm2) (h : acc.dotProduct ^ 2 ≤ acc.norm1 * acc.norm2) :
    0 ≤ (simLoop acc ps).norm1 ∧ 0 ≤ (simLoop acc ps).norm2 ∧
      (simLoop acc ps).dotProduct ^ 2 ≤ (simLoop acc ps).norm1 * (simLoop acc ps).norm2 := by
  induction ps generalizing acc with
  | nil => exact ⟨h1, h2, h⟩
  | cons p ps ih =>
    rw [simLoop_cons]
    apply ih
    · exact add_nonneg h1 (mul_self_nonneg p.1)
    · exact add_nonneg h2 (mul_self_nonneg p.2)
    · exact cauchy_step _ _ _ _ _ h1 h2 h

/-- The first norm is positive after the loop as soon as it was positive before or some first
component is not zero. -/
theorem simLoop_norm1_pos (ps : List (ℝ × ℝ)) (acc : SimAcc) (h1 : 0 ≤ acc.norm1)
    (h : 0 < acc.norm1 ∨ ∃ p ∈ ps, p.1 ≠ 0) : 0 < (simLoop acc ps).norm1 := by
  induction ps generalizing acc with
  | nil =>
    rcases h with h | ⟨p, hp, _⟩
    · exact h
    · cases hp
  | cons q ps ih =>
    rw [simLoop_cons]
    have hq : 0 ≤ q.1 * q.1 := mul_self_nonneg q.1
    apply ih
    · exact add_nonneg h1 hq
    · rcases h with h | ⟨p, hp, hne⟩
      · exact Or.inl (add_pos_of_pos_of_nonneg h hq)
      · rcases List.mem_cons.1 hp with rfl | hp
        · exact Or.inl (add_pos_of_nonneg_of_pos h1 (mul_self_pos.2 hne))
        · exact Or.inr ⟨p, hp, hne⟩

/-- The second norm is positive after the loop as soon as it was positive before or some second
component is not zero. -/
theorem simLoop_norm2_pos (ps : List (ℝ × ℝ)) (acc : SimAcc) (h2 : 0 ≤ acc.norm2)
    (h : 0 < acc.norm2 ∨ ∃ p ∈ ps, p.2 ≠ 0) : 0 < (simLoop acc ps).norm2 := by
  induction ps generalizing acc with
  | nil =>
    rcases h with h | ⟨p, hp, _⟩
    · exact h
    · cases hp
  | cons q ps ih =>
    rw [simLoop_cons]
    have hq : 0 ≤ q.2 * q.2 := mul_self_nonneg q.2
    apply ih
    · exact add_nonneg h2 hq
    · rcases h with h | ⟨p, hp, hne⟩
      · exact Or.inl (add_pos_of_pos_of_nonneg h hq)
      · rcases List.mem_cons.1 hp with rfl | hp
        · exact Or.inl (add_pos_of_nonneg_of_pos h2 (mul_self_pos.2 hne))
        · exact Or.inr ⟨p, hp, hne⟩

/-- Pairs whose first component is zero leave the dot product and the first norm as they
were. -/
theorem simLoop_zero_left (ps : List (ℝ × ℝ)) (acc : SimAcc) (h : ∀ p ∈ ps, p.1 = 0) :
    (simLoop acc ps).dotProduct = acc.dotProduct ∧ (simLoop acc ps).norm1 = acc.norm1 := by
  induction ps generalizing acc with
  | nil => exact ⟨rfl, rfl⟩
  | cons q ps ih =>
    rw [simLoop_cons]
    have hq : q.1 = 0 := h q (List.mem_cons_self _ _)
    obtain ⟨hd, hn⟩ := ih (simStep acc q) (fun p hp => h p (List.mem_cons_of_mem _ hp))
    rw [hd, hn]
    simp [simStep, hq]

/-- Pairs whose second component is zero leave the dot product and the second norm as they
were. -/
theorem simLoop_zero_right (ps : List (ℝ × ℝ)) (acc : SimAcc) (h : ∀ p ∈ ps, p.2 = 0) :
    (simLoop acc ps).dotProduct = acc.dotProduct ∧ (simLoop acc ps).norm2 = acc.norm2 := by
  induction ps generalizing acc with
  | nil => exact ⟨rfl, rfl⟩
  | cons q ps ih =>
    rw [simLoop_cons]
    have hq : q.2 = 0 := h q (List.mem_cons_self _ _)
    obtain ⟨hd, hn⟩ := ih (simStep acc q) (fun p hp => h p (List.mem_cons_of_mem _ hp))
    rw [hd, hn]
    simp [simStep, hq]

/-- Exchanging the two vectors exchanges the two norms and keeps the dot product. -/
theorem simLoop_swap (ps : List (ℝ × ℝ)) (acc : SimAcc) :
    simLoop ⟨acc.dotProduct, acc.norm2, acc.norm1⟩ (ps.map Prod.swap) =
      ⟨(simLoop acc ps).dotProduct, (simLoop acc ps).norm2, (simLoop acc ps).norm1⟩ := by
  induction ps generalizing acc with
  | nil => rfl
  | cons q ps ih =>
    rw [List.map_cons, simLoop_cons, simLoop_cons, ← ih]
    simp [simStep, mul_comm]

/-- On pairs of equal components the three accumulators stay equal. -/
theorem simLoop_diag (ps : List (ℝ × ℝ)) (acc : SimAcc) (h : ∀ p ∈ ps, p.1 = p.2)
    (hd : acc.dotProduct = acc.norm1) (hn : acc.norm2 = acc.norm1) :
    (simLoop acc ps).dotProduct = (simLoop acc ps).norm1 ∧
      (simLoop acc ps).norm2 = (simLoop acc ps).norm1 := by
  induction ps generalizing acc with
  | nil => exact ⟨hd, hn⟩
  | cons q ps ih =>
    rw [simLoop_cons]
    have hq : q.1 = q.2 := h q (List.mem_cons_self _ _)
    apply ih _ (fun p hp => h p (List.mem_cons_of_mem _ hp))
    · simp [simStep, hd, hq]
    · simp [simStep, hn, hq]

/-! ### The value of the similarity metric -/

theorem calculateSimilarity_of_length_eq (a b : List ℝ) (h : a.length = b.length) :
    calculateSimilarity a b =
      JSNumber.div (simLoop ⟨0, 0, 0⟩ (a.zip b)).dotProduct
        (Real.sqrt (simLoop ⟨0, 0, 0⟩ (a.zip b)).norm1 *
          Real.sqrt (simLoop ⟨0, 0, 0⟩ (a.zip b)).norm2) := by
  unfold calculateSimilarity
  rw [if_neg (not_not.2 h)]

theorem exists_mem_zip_fst {a b : List ℝ} (h : a.length = b.length) {x : ℝ} (hx : x ∈ a) :
    ∃ p ∈ a.zip b, p.1 = x := by
  rw [← List.map_fst_zip a b (le_of_eq h)] at hx
  exact List.mem_map.1 hx

theorem exists_mem_zip_snd {a b : List ℝ} (h : a.length = b.length) {y : ℝ} (hy : y ∈ b) :
    ∃ p ∈ a.zip b, p.2 = y := by
  rw [← List.map_snd_zip a b (le_of_eq h.symm)] at hy
  exact List.mem_map.1 hy

theorem fst_eq_snd_of_mem_zip_self (a : List ℝ) (q : ℝ × ℝ) (hq : q ∈ a.zip a) : q.1 = q.2 := by
  induction a with
  | nil => cases hq
  | cons x a ih =>
    rw [List.zip_cons_cons] at hq
    rcases List.mem_cons.1 hq with rfl | hq
    · rfl
    · exact ih hq

theorem JSNumber.div_of_ne_zero (x y : ℝ) (hy : y ≠ 0) :
    JSNumber.div x y = JSNumber.finite (x / y) := by
  unfold JSNumber.div
  rw [if_neg hy]

theorem JSNumber.div_zero_zero : JSNumber.div 0 0 = JSNumber.nan := by
  unfold JSNumber.div
  rw [if_pos rfl, if_pos rfl]

/-- For two vectors of one length, neither of them the zero vector, the similarity is the
finite quotient of line 21 and lies between `-1` and `1`. -/
theorem calculateSimilarity_finite (a b : List ℝ) (h : a.length = b.length)
    (ha : ∃ x ∈ a, x ≠ 0) (hb : ∃ y ∈ b, y ≠ 0) :
    ∃ s : ℝ, calculateSimilarity a b = JSNumber.finite s ∧ -1 ≤ s ∧ s ≤ 1 := by
  obtain ⟨x, hx, hx0⟩ := ha
  obtain ⟨y, hy, hy0⟩ := hb
  obtain ⟨p, hp, hpx⟩ := exists_mem_zip_fst h hx
  obtain ⟨q, hq, hqy⟩ := exists_mem_zip_snd h hy
  have h1 : 0 < (simLoop ⟨0, 0, 0⟩ (a.zip b)).norm1 :=
    simLoop_norm1_pos _ _ (le_refl _) (Or.inr ⟨p, hp, by rw [hpx]; exact hx0⟩)
  have h2 : 0 < (simLoop ⟨0, 0, 0⟩ (a.zip b)).norm2 :=
    simLoop_norm2_pos _ _ (le_refl _) (Or.inr ⟨q, hq, by rw [hqy]; exact hy0⟩)
  obtain ⟨_, _, hc⟩ := simLoop_cauchy (a.zip b) ⟨0, 0, 0⟩ (le_refl _) (le_refl _) (by simp)
  rw [calculateSimilarity_of_length_eq a b h]
  generalize simLoop ⟨0, 0, 0⟩ (a.zip b) = acc at h1 h2 hc ⊢
  have hpos : 0 < Real.sqrt acc.norm1 * Real.sqrt acc.norm2 :=
    mul_pos (Real.sqrt_pos.2 h1) (Real.sqrt_pos.2 h2)
  have habs : |acc.dotProduct| ≤ Real.sqrt acc.norm1 * Real.sqrt acc.norm2 := by
    rw [← Real.sqrt_mul h1.le]
    exact Real.abs_le_sqrt hc
  refine ⟨_, JSNumber.div_of_ne_zero _ _ hpos.ne', ?_, ?_⟩
  · rw [le_div_iff₀ hpos]
    linarith [(abs_le.1 habs).1]
  · rw [div_le_one hpos]
    exact (abs_le.1 habs).2

/-- For two vectors of one length, one of them the zero vector (the empty vector included),
line 21 divides zero by zero: the similarity is `NaN`. -/
theorem calculateSimilarity_nan (a b : List ℝ) (h : a.length = b.length)
    (hz : (∀ x ∈ a, x = 0) ∨ (∀ y ∈ b, y = 0)) : calculateSimilarity a b = JSNumber.nan := by
  rw [calculateSimilarity_of_length_eq a b h]
  rcases hz with hz | hz
  · obtain ⟨hd, hn⟩ := simLoop_zero_left (a.zip b) ⟨0, 0, 0⟩
      (fun p hp => hz p.1 (List.of_mem_zip hp).1)
    rw [hd, hn]
    simp [JSNumber.div_zero_zero]
  · obtain ⟨hd, hn⟩ := simLoop_zero_right (a.zip b) ⟨0, 0, 0⟩
      (fun p hp => hz p.2 (List.of_mem_zip hp).2)
    rw [hd, hn]
    simp [JSNumber.div_zero_zero]

/-- The similarity of a vector that is not the zero vector with itself is exactly `1`. -/
theorem calculateSimilarity_self_eq_one (a : List ℝ) (ha : ∃ x ∈ a, x ≠ 0) :
    calculateSimilarity a a = JSNumber.finite 1 := by
  obtain ⟨x, hx, hx0⟩ := ha
  obtain ⟨p, hp, hpx⟩ := exists_mem_zip_fst (rfl : a.length = a.length) hx
  have h1 : 0 < (simLoop ⟨0, 0, 0⟩ (a.zip a)).norm1 :=
    simLoop_norm1_pos _ _ (le_refl _) (Or.inr ⟨p, hp, by rw [hpx]; exact hx0⟩)
  obtain ⟨hd, hn⟩ := simLoop_diag (a.zip a) ⟨0, 0, 0⟩ (fun q hq => fst_eq_snd_of_mem_zip_self a q hq)
    rfl rfl
  rw [calculateSimilarity_of_length_eq a a rfl, hd, hn, Real.mul_self_sqrt h1.le,
    JSNumber.div_of_ne_zero _ _ h1.ne', div_self h1.ne']

/-! ### The comparisons of JavaScript numbers -/

theorem JSNumber.gt_irrefl (x : JSNumber) : ¬ x.gt x := by
  cases x <;> simp [JSNumber.gt]

theorem JSNumber.gt_trans {x y z : JSNumber} (hxy : x.gt y) (hyz : y.gt z) : x.gt z := by
  cases x <;> cases y <;> cases z <;> simp_all [JSNumber.gt]
  exact lt_trans hyz hxy

theorem JSNumber.not_nan_gt (y : JSNumber) : ¬ JSNumber.nan.gt y := by
  cases y <;> simp [JSNumber.gt]

theorem JSNumber.not_gt_nan (x : JSNumber) : ¬ x.gt JSNumber.nan := by
  cases x <;> simp [JSNumber.gt]

theorem JSNumber.finite_gt_finite (x y : ℝ) :
    (JSNumber.finite x).gt (JSNumber.finite y) ↔ y < x := Iff.rfl

theorem JSNumber.finite_le_finite (x y : ℝ) :
    (JSNumber.finite x).le (JSNumber.finite y) ↔ x ≤ y := Iff.rfl

/-- A number that is `<=` another is not `>` it. -/
theorem JSNumber.not_gt_of_le {x y : JSNumber} (h : x.le y) : ¬ x.gt y := by
  cases x <;> cases y <;> simp_all [JSNumber.gt, JSNumber.le]

/-- A number that is not `>` a number other than `NaN` is `NaN` or `<=` it. -/
theorem JSNumber.nan_or_le_of_not_gt {x y : JSNumber} (h : ¬ x.gt y) (hy : y ≠ JSNumber.nan) :
    x = JSNumber.nan ∨ x.le y := by
  cases x <;> cases y <;> simp_all [JSNumber.gt, JSNumber.le]

theorem threshold_pos : (JSNumber.finite threshold).gt (JSNumber.finite 0) := by
  rw [JSNumber.finite_gt_finite]
  norm_num [threshold]

/-! ### The scan of the login handler -/

theorem loginScan_append (q : List ℝ) (users : List User) (user : User) :
    loginScan q (users ++ [user]) = loginStep q (loginScan q users) user := by
  unfold loginScan
  rw [List.foldl_append]
  rfl

/-- The state of the scan after any list of users: either nothing was above the threshold and
the variables are as initialised, or they hold the first user attaining the greatest
similarity, which is above the threshold. -/
theorem loginScan_spec (q : List ℝ) (users : List User) :
    ((loginScan q users).bestMatch = none ∧
        (loginScan q users).bestSimilarity = JSNumber.finite 0 ∧
        ∀ u ∈ users, ¬ (calculateSimilarity q u.features).gt (JSNumber.finite threshold)) ∨
      ∃ pre e post, users = pre ++ e :: post ∧
        loginScan q users = ⟨some e, calculateSimilarity q e.features⟩ ∧
        (calculateSimilarity q e.features).gt (JSNumber.finite threshold) ∧
        (∀ u ∈ users, ¬ (calculateSimilarity q u.features).gt
          (calculateSimilarity q e.features)) ∧
        ∀ u ∈ pre, calculateSimilarity q u.features ≠ calculateSimilarity q e.features := by
  induction users using List.reverseRecOn with
  | nil =>
    left
    exact ⟨rfl, rfl, fun u hu => by cases hu⟩
  | append_singleton users user ih =>
    rw [loginScan_append]
    by_cases hup : (calculateSimilarity q user.features).gt (loginScan q users).bestSimilarity ∧
        (calculateSimilarity q user.features).gt (JSNumber.finite threshold)
    · -- the user becomes the best match
      right
      have hstep : loginStep q (loginScan q users) user =
          ⟨some user, calculateSimilarity q user.features⟩ := by
        unfold loginStep
        exact if_pos hup
      refine ⟨users, user, [], rfl, hstep, hup.2, ?_, ?_⟩
      · intro u hu
        rcases List.mem_append.1 hu with hu | hu
        · rcases ih with ⟨_, _, hall⟩ | ⟨pre, e, post, _, hst, _, hall, _⟩
          · exact fun hgt => hall u hu (JSNumber.gt_trans hgt hup.2)
          · rw [hst] at hup
            exact fun hgt => hall u hu (JSNumber.gt_trans hgt hup.1)
        · rw [List.mem_singleton.1 hu]
          exact JSNumber.gt_irrefl _
      · intro u hu heq
        rcases ih with ⟨_, _, hall⟩ | ⟨pre, e, post, _, hst, _, hall, _⟩
        · exact hall u hu (heq ▸ hup.2)
        · rw [hst] at hup
          exact hall u hu (heq ▸ hup.1)
    · -- the variables are left as they were
      have hstep : loginStep q (loginScan q users) user = loginScan q users := by
        unfold loginStep
        exact if_neg hup
      rw [hstep]
      rcases ih with ⟨hnone, hzero, hall⟩ | ⟨pre, e, post, hsplit, hst, hthr, hall, hfirst⟩
      · left
        refine ⟨hnone, hzero, ?_⟩
        intro u hu
        rcases List.mem_append.1 hu with hu | hu
        · exact hall u hu
        · rw [List.mem_singleton.1 hu]
          intro hgt
          apply hup
          rw [hzero]
          exact ⟨JSNumber.gt_trans hgt threshold_pos, hgt⟩
      · right
        refine ⟨pre, e, post ++ [user], ?_, hst, hthr, ?_, hfirst⟩
        · rw [hsplit]
          simp
        · intro u hu
          rcases List.mem_append.1 hu with hu | hu
          · exact hall u hu
          · rw [List.mem_singleton.1 hu]
            intro hgt
            apply hup
            rw [hst]
            exact ⟨hgt, JSNumber.gt_trans hgt hthr⟩

/-- The value of the similarity metric is `NaN`, for two vectors of one length of which one is
the zero vector, or a finite number between `-1` and `1`. -/
theorem calculateSimilarity_cases (a b : List ℝ) :
    (a.length = b.length ∧ ((∀ x ∈ a, x = 0) ∨ (∀ y ∈ b, y = 0)) ∧
        calculateSimilarity a b = JSNumber.nan) ∨
      ∃ s : ℝ, calculateSimilarity a b = JSNumber.finite s ∧ -1 ≤ s ∧ s ≤ 1 := by
  by_cases h : a.length = b.length
  · by_cases ha : ∃ x ∈ a, x ≠ 0
    · by_cases hb : ∃ y ∈ b, y ≠ 0
      · exact Or.inr (calculateSimilarity_finite a b h ha hb)
      · have hb0 : ∀ y ∈ b, y = 0 := by
          intro y hy
          by_contra hne
          exact hb ⟨y, hy, hne⟩
        exact Or.inl ⟨h, Or.inr hb0, calculateSimilarity_nan a b h (Or.inr hb0)⟩
    · have ha0 : ∀ x ∈ a, x = 0 := by
        intro x hx
        by_contra hne
        exact ha ⟨x, hx, hne⟩
      exact Or.inl ⟨h, Or.inl ha0, calculateSimilarity_nan a b h (Or.inl ha0)⟩
  · exact Or.inr ⟨0, calculateSimilarity_of_length_ne a b h, by norm_num, by norm_num⟩

/-! ### The claims about the similarity metric -/

/-- C4: for vectors of different lengths `calculateSimilarity` returns exactly `0`, whatever
their contents; the function is total, so it does not fail. -/
theorem calculateSimilarity_unequal_length (a b : List ℝ) (h : a.length ≠ b.length) :
    calculateSimilarity a b = JSNumber.finite 0 :=
  calculateSimilarity_of_length_ne a b h

/-- C4 at the vectors `[1, 2, 3]` and `[4, 5]`. -/
theorem calculateSimilarity_unequal_length_witness :
    calculateSimilarity [1, 2, 3] [4, 5] = JSNumber.finite 0 :=
  calculateSimilarity_unequal_length [1, 2, 3] [4, 5] (by decide)

/-- C6, the claim as stated fails: for the zero vector `[0, 0]` and `[3, 4]` the division is
not guarded and the similarity is `NaN`, not `0`. -/
theorem calculateSimilarity_zero_counterexample :
    calculateSimilarity [0, 0] [3, 4] = JSNumber.nan ∧
      calculateSimilarity [0, 0] [3, 4] ≠ JSNumber.finite 0 := by
  have h : calculateSimilarity [0, 0] [3, 4] = JSNumber.nan :=
    calculateSimilarity_nan [0, 0] [3, 4] rfl (Or.inl (by simp))
  rw [h]
  exact ⟨rfl, fun hne => by cases hne⟩

/-- C6 as amended: for two vectors of equal length of which at least one is the zero vector
the unguarded division yields `NaN`, and the comparison of the matcher with the threshold is
false on it. -/
theorem calculateSimilarity_zero (a b : List ℝ) (h : a.length = b.length)
    (hz : (∀ x ∈ a, x = 0) ∨ (∀ y ∈ b, y = 0)) :
    calculateSimilarity a b = JSNumber.nan ∧
      ¬ (calculateSimilarity a b).gt (JSNumber.finite threshold) := by
  rw [calculateSimilarity_nan a b h hz]
  exact ⟨rfl, JSNumber.not_nan_gt _⟩

/-- C6 as amended at the vectors `[1, 2]` and `[0, 0]`. -/
theorem calculateSimilarity_zero_witness :
    calculateSimilarity [1, 2] [0, 0] = JSNumber.nan ∧
      ¬ (calculateSimilarity [1, 2] [0, 0]).gt (JSNumber.finite threshold) :=
  calculateSimilarity_zero [1, 2] [0, 0] rfl (Or.inr (by simp))

/-- C7: `calculateSimilarity(a, b)` and `calculateSimilarity(b, a)` are the same value, for
vectors of equal length (and for vectors of different lengths as well). -/
theorem calculateSimilarity_comm (a b : List ℝ) :
    calculateSimilarity a b = calculateSimilarity b a := by
  by_cases h : a.length = b.length
  · have hswap := simLoop_swap (a.zip b) ⟨0, 0, 0⟩
    rw [List.zip_swap] at hswap
    rw [calculateSimilarity_of_length_eq a b h, calculateSimilarity_of_length_eq b a h.symm,
      hswap, mul_comm]
  · rw [calculateSimilarity_of_length_ne a b h,
      calculateSimilarity_of_length_ne b a (fun h2 => h h2.symm)]

/-- C8, the claim as stated fails: the similarity of `[0]` and `[1]` is `NaN`, no number of the
interval from `-1` to `1`. -/
theorem calculateSimilarity_range_counterexample :
    ¬ ∃ s : ℝ, calculateSimilarity [0] [1] = JSNumber.finite s ∧ -1 ≤ s ∧ s ≤ 1 := by
  have h : calculateSimilarity [0] [1] = JSNumber.nan :=
    calculateSimilarity_nan [0] [1] rfl (Or.inl (by simp))
  rw [h]
  rintro ⟨s, hs, _⟩
  cases hs

/-- C8 as amended: for all vectors `a` and `b` the value of `calculateSimilarity(a, b)` is
either `NaN`, which happens for vectors of equal length of which one is the zero vector, or a
finite number of the closed interval from `-1` to `1`. -/
theorem calculateSimilarity_range (a b : List ℝ) :
    (a.length = b.length ∧ ((∀ x ∈ a, x = 0) ∨ (∀ y ∈ b, y = 0)) ∧
        calculateSimilarity a b = JSNumber.nan) ∨
      ∃ s : ℝ, calculateSimilarity a b = JSNumber.finite s ∧ -1 ≤ s ∧ s ≤ 1 :=
  calculateSimilarity_cases a b

/-! ### The login handler on a feature array -/

/-- Every array passes the validation of line 67; the response is read off the scan. -/
theorem login_array (q : List ℝ) (users : List User) :
    login (JSValue.array q) users =
      match (loginScan q users).bestMatch with
      | some user => LoginResponse.success user.username (loginScan q users).bestSimilarity
      | none => LoginResponse.unauthorized := by
  unfold login
  rw [if_neg (by simp [JSValue.truthy, JSValue.isArray])]
  rfl

/-- The response of the login handler to a feature array: "Face not recognized" when no
similarity is above the threshold, otherwise the first user attaining the greatest
similarity, with that similarity. -/
theorem login_cases (q : List ℝ) (users : List User) :
    (login (JSValue.array q) users = LoginResponse.unauthorized ∧
        ∀ u ∈ users, ¬ (calculateSimilarity q u.features).gt (JSNumber.finite threshold)) ∨
      ∃ pre e post, users = pre ++ e :: post ∧
        login (JSValue.array q) users =
          LoginResponse.success e.username (calculateSimilarity q e.features) ∧
        (calculateSimilarity q e.features).gt (JSNumber.finite threshold) ∧
        (∀ u ∈ users, ¬ (calculateSimilarity q u.features).gt
          (calculateSimilarity q e.features)) ∧
        ∀ u ∈ pre, calculateSimilarity q u.features ≠ calculateSimilarity q e.features := by
  rw [login_array]
  rcases loginScan_spec q users with ⟨hnone, _, hall⟩ | ⟨pre, e, post, hsplit, hst, hthr, hall, hfirst⟩
  · left
    rw [hnone]
    exact ⟨rfl, hall⟩
  · right
    refine ⟨pre, e, post, hsplit, ?_, hthr, hall, hfirst⟩
    rw [hst]

/-- A feature array to which no similarity is above the threshold is answered "Face not
recognized". -/
theorem login_unauthorized_of_not_gt (q : List ℝ) (users : List User)
    (h : ∀ u ∈ users, ¬ (calculateSimilarity q u.features).gt (JSNumber.finite threshold)) :
    login (JSValue.array q) users = LoginResponse.unauthorized := by
  rcases login_cases q users with ⟨hres, _⟩ | ⟨pre, e, post, hsplit, _, hthr, _, _⟩
  · exact hres
  · exact absurd hthr (h e (by rw [hsplit]; simp))

/-- The similarity of the empty vector with any vector is `0` or `NaN`, never above the
threshold. -/
theorem calculateSimilarity_nil_not_gt (b : List ℝ) :
    ¬ (calculateSimilarity [] b).gt (JSNumber.finite threshold) := by
  rcases calculateSimilarity_cases [] b with ⟨_, _, hnan⟩ | ⟨s, hs, _, _⟩
  · rw [hnan]
    exact JSNumber.not_nan_gt _
  · by_cases hlen : ([] : List ℝ).length = b.length
    · rw [calculateSimilarity_nan [] b hlen (Or.inl (by simp))]
      exact JSNumber.not_nan_gt _
    · rw [calculateSimilarity_of_length_ne [] b hlen, JSNumber.finite_gt_finite]
      norm_num [threshold]

/-! ### The claims about the login handler -/

/-- C1: for every feature array (every array passes the validation) and every list of users in
iteration order, the login scan is the best match above the threshold: the response is a
successful login exactly when some user has a similarity `> 0.7`; in that case the returned
similarity is the greatest similarity over all users (every other one is `NaN` or `<=` it) and
the returned username is that of the first user in iteration order attaining it; otherwise
the response is "Face not recognized". -/
theorem login_best_match_above_threshold (q : List ℝ) (users : List User) :
    ((∃ name score, login (JSValue.array q) users = LoginResponse.success name score) ↔
        ∃ u ∈ users, (calculateSimilarity q u.features).gt (JSNumber.finite threshold)) ∧
      ((∃ u ∈ users, (calculateSimilarity q u.features).gt (JSNumber.finite threshold)) →
        ∃ pre e post, users = pre ++ e :: post ∧
          login (JSValue.array q) users =
            LoginResponse.success e.username (calculateSimilarity q e.features) ∧
          (∀ u ∈ users, calculateSimilarity q u.features = JSNumber.nan ∨
            (calculateSimilarity q u.features).le (calculateSimilarity q e.features)) ∧
          ∀ u ∈ pre, calculateSimilarity q u.features ≠ calculateSimilarity q e.features) ∧
      ((¬ ∃ u ∈ users, (calculateSimilarity q u.features).gt (JSNumber.finite threshold)) →
        login (JSValue.array q) users = LoginResponse.unauthorized) := by
  rcases login_cases q users with ⟨hres, hall⟩ | ⟨pre, e, post, hsplit, hres, hthr, hall, hfirst⟩
  · refine ⟨⟨?_, ?_⟩, ?_, fun _ => hres⟩
    · rintro ⟨name, score, h⟩
      rw [hres] at h
      cases h
    · rintro ⟨u, hu, hgt⟩
      exact absurd hgt (hall u hu)
    · rintro ⟨u, hu, hgt⟩
      exact absurd hgt (hall u hu)
  · have hmem : e ∈ users := by
      rw [hsplit]
      simp
    refine ⟨⟨fun _ => ⟨e, hmem, hthr⟩, fun _ => ⟨_, _, hres⟩⟩, fun _ => ?_, fun hno => ?_⟩
    · refine ⟨pre, e, post, hsplit, hres, fun u hu => ?_, hfirst⟩
      apply JSNumber.nan_or_le_of_not_gt (hall u hu)
      intro hnan
      rw [hnan] at hthr
      exact JSNumber.not_nan_gt _ hthr
    · exact absurd ⟨e, hmem, hthr⟩ hno

/-- C1 at the query `[1, 0]` and the store of alice `[0, 1]`, bob `[1, 0]` and carol `[2, 0]`:
bob and carol both attain the greatest similarity and some user is the first to do so. -/
theorem login_best_match_above_threshold_witness :
    ∃ pre e post,
      ([⟨"alice", "a", [0, 1], 0⟩, ⟨"bob", "b", [1, 0], 1⟩, ⟨"carol", "c", [2, 0], 2⟩] :
          List User) = pre ++ e :: post ∧
        login (JSValue.array [1, 0])
            [⟨"alice", "a", [0, 1], 0⟩, ⟨"bob", "b", [1, 0], 1⟩, ⟨"carol", "c", [2, 0], 2⟩] =
          LoginResponse.success e.username (calculateSimilarity [1, 0] e.features) ∧
        (∀ u ∈ ([⟨"alice", "a", [0, 1], 0⟩, ⟨"bob", "b", [1, 0], 1⟩,
              ⟨"carol", "c", [2, 0], 2⟩] : List User),
          calculateSimilarity [1, 0] u.features = JSNumber.nan ∨
            (calculateSimilarity [1, 0] u.features).le (calculateSimilarity [1, 0] e.features)) ∧
        ∀ u ∈ pre, calculateSimilarity [1, 0] u.features ≠ calculateSimilarity [1, 0] e.features :=
  (login_best_match_above_threshold [1, 0]
    [⟨"alice", "a", [0, 1], 0⟩, ⟨"bob", "b", [1, 0], 1⟩, ⟨"carol", "c", [2, 0], 2⟩]).2.1
    ⟨⟨"bob", "b", [1, 0], 1⟩, by simp, by
      rw [calculateSimilarity_self_eq_one [1, 0] ⟨1, by simp, by norm_num⟩,
        JSNumber.finite_gt_finite]
      norm_num [threshold]⟩

/-- C2: for every query vector and every store in which every similarity to the query is
`<= 0.7`, the response is "Face not recognized", whichever of them is the greatest; so it is
for the empty store. -/
theorem login_rejected_below_threshold (q : List ℝ) (users : List User)
    (h : ∀ u ∈ users, (calculateSimilarity q u.features).le (JSNumber.finite threshold)) :
    login (JSValue.array q) users = LoginResponse.unauthorized ∧
      login (JSValue.array q) [] = LoginResponse.unauthorized :=
  ⟨login_unauthorized_of_not_gt q users (fun u hu => JSNumber.not_gt_of_le (h u hu)),
    login_unauthorized_of_not_gt q [] (fun u hu => by cases hu)⟩

/-- C2 at the store of alice `[1, 0]` and bob `[4, 3]` and the query `[0, 1]`, orthogonal to
alice: the similarities are `0` and `0.6`, and the greatest of them is not accepted. -/
theorem login_rejected_below_threshold_witness :
    login (JSValue.array [0, 1]) [⟨"alice", "a", [1, 0], 0⟩, ⟨"bob", "b", [4, 3], 1⟩] =
        LoginResponse.unauthorized ∧
      login (JSValue.array [0, 1]) [] = LoginResponse.unauthorized :=
  login_rejected_below_threshold [0, 1] [⟨"alice", "a", [1, 0], 0⟩, ⟨"bob", "b", [4, 3], 1⟩] (by
    have h0 : calculateSimilarity [0, 1] [1, 0] = JSNumber.finite 0 := by
      simp [calculateSimilarity, simLoop, simStep, JSNumber.div]
    have h5 : Real.sqrt 25 = 5 := by
      rw [show (25 : ℝ) = 5 * 5 by norm_num]
      exact Real.sqrt_mul_self (by norm_num)
    have h1 : calculateSimilarity [0, 1] [4, 3] = JSNumber.finite (3 / 5) := by
      simp [calculateSimilarity, simLoop, simStep, JSNumber.div]
      norm_num [h5]
    intro u hu
    rcases List.mem_cons.1 hu with rfl | hu
    · show (calculateSimilarity [0, 1] [1, 0]).le (JSNumber.finite threshold)
      rw [h0, JSNumber.finite_le_finite]
      norm_num [threshold]
    · rw [List.mem_singleton.1 hu]
      show (calculateSimilarity [0, 1] [4, 3]).le (JSNumber.finite threshold)
      rw [h1, JSNumber.finite_le_finite]
      norm_num [threshold])

/-- C9, the claim as stated fails at the empty vector: it passes the validation of line 67 and
is answered "Face not recognized", not "Valid features array is required". -/
theorem login_empty_vector_counterexample :
    login (JSValue.array []) [⟨"alice", "a", [1, 0], 0⟩] = LoginResponse.unauthorized ∧
      login (JSValue.array []) [⟨"alice", "a", [1, 0], 0⟩] ≠ LoginResponse.badRequest := by
  have h : login (JSValue.array []) [⟨"alice", "a", [1, 0], 0⟩] = LoginResponse.unauthorized :=
    login_unauthorized_of_not_gt [] _ (fun u _ => calculateSimilarity_nil_not_gt u.features)
  rw [h]
  exact ⟨rfl, fun hne => by cases hne⟩

/-- C9 as amended: for every store the login fails with "Valid features array is required",
neither a successful login nor "Face not recognized", exactly when the `features` of the
request are falsy (absent included) or not an array; the empty array passes the validation and
is answered "Face not recognized". -/
theorem login_invalid_input (features : JSValue) (users : List User) :
    (login features users = LoginResponse.badRequest ↔
        (¬ features.truthy ∨ ¬ features.isArray)) ∧
      login (JSValue.array []) users = LoginResponse.unauthorized := by
  refine ⟨⟨fun h => ?_, fun h => ?_⟩, ?_⟩
  · by_contra hval
    unfold login at h
    rw [if_neg hval] at h
    cases hbest : (loginScan features.elements users).bestMatch with
    | none => simp [hbest] at h
    | some user => simp [hbest] at h
  · unfold login
    rw [if_pos h]
  · exact login_unauthorized_of_not_gt [] users
      (fun u _ => calculateSimilarity_nil_not_gt u.features)

/-! ### The register handler -/

/-- A registration answered with 201 had a non-empty username and image and found no user of
that name; the new document was saved at the end of the store. -/
theorem register_created (users : List User) (u img : String) (v : List ℝ) (now : Nat)
    (h : (register (some u) (some img) (some v) now users).1 = RegisterResponse.created u) :
    u ≠ "" ∧ img ≠ "" ∧ findOne u users = none ∧
      (register (some u) (some img) (some v) now users).2 = users ++ [⟨u, img, v, now⟩] := by
  unfold register at h ⊢
  by_cases hempty : u = "" ∨ img = ""
  · simp only [if_pos hempty] at h
    cases h
  · simp only [if_neg hempty] at h ⊢
    cases hfind : findOne u users with
    | some found =>
      rw [hfind] at h
      cases h
    | none =>
      exact ⟨fun hu => hempty (Or.inl hu), fun hi => hempty (Or.inr hi), rfl, rfl⟩

/-- A registration with all fields present and non-empty under a username of the store is
answered "Username already exists" and leaves the store as it was. -/
theorem register_existing (users : List User) (u img : String) (v : List ℝ) (now : Nat)
    (found : User) (hu : u ≠ "") (hi : img ≠ "") (hfind : findOne u users = some found) :
    register (some u) (some img) (some v) now users =
      (RegisterResponse.usernameExists, users) := by
  unfold register
  have hempty : ¬ (u = "" ∨ img = "") := fun h => h.elim hu hi
  simp only [if_neg hempty, hfind]

/-! ### The claim about the register handler -/

/-- C10: for every store, username `u`, image and vectors `v1`, `v2`: after a successful
registration of `u` with `v1`, a second registration under the same username is answered
"Username already exists" and leaves the store unchanged, so the store holds exactly one
document for `u`, the first one, with the vector `v1`. -/
theorem register_duplicate_username (users : List User) (u img : String) (v1 v2 : List ℝ)
    (now1 now2 : Nat)
    (h : (register (some u) (some img) (some v1) now1 users).1 = RegisterResponse.created u) :
    register (some u) (some img) (some v2) now2
        (register (some u) (some img) (some v1) now1 users).2 =
      (RegisterResponse.usernameExists, (register (some u) (some img) (some v1) now1 users).2) ∧
    (register (some u) (some img) (some v2) now2
        (register (some u) (some img) (some v1) now1 users).2).2.filter
      (fun user => user.username == u) = [⟨u, img, v1, now1⟩] := by
  obtain ⟨hu, hi, hfind, hstore⟩ := register_created users u img v1 now1 h
  have hfind2 : findOne u (users ++ [⟨u, img, v1, now1⟩]) = some ⟨u, img, v1, now1⟩ := by
    unfold findOne at hfind ⊢
    rw [List.find?_append, hfind]
    simp
  have hsecond := register_existing (users ++ [⟨u, img, v1, now1⟩]) u img v2 now2 _ hu hi hfind2
  rw [hstore, hsecond]
  refine ⟨rfl, ?_⟩
  have hnone : users.filter (fun user => user.username == u) = [] := by
    unfold findOne at hfind
    rw [List.filter_eq_nil_iff]
    intro a ha
    exact List.find?_eq_none.1 hfind a ha
  simp [List.filter_append, hnone]

/-- C10 at the empty store, the username `alice` and the vectors `[1, 0]` and `[0, 1]`. -/
theorem register_duplicate_username_witness :
    register (some "alice") (some "img") (some [0, 1]) 1
        (register (some "alice") (some "img") (some [1, 0]) 0 []).2 =
      (RegisterResponse.usernameExists,
        (register (some "alice") (some "img") (some [1, 0]) 0 []).2) ∧
    (register (some "alice") (some "img") (some [0, 1]) 1
        (register (some "alice") (some "img") (some [1, 0]) 0 []).2).2.filter
      (fun user => user.username == "alice") = [⟨"alice", "img", [1, 0], 0⟩] :=
  register_duplicate_username [] "alice" "img" [1, 0] [0, 1] 0 1 (by decide)

/-! ### The claim about the validation of the register handler -/

/-- C11: for every store the registration is answered "Username, image data, and features are
required" whenever the username is empty or absent, the image is absent or the vector is
absent, and the store is then left as it was: no document is saved. -/
theorem register_missing_field (username imageData : Option String)
    (features : Option (List ℝ)) (now : Nat) (users : List User)
    (h : username = none ∨ username = some "" ∨ imageData = none ∨ features = none) :
    register username imageData features now users = (RegisterResponse.fieldsRequired, users) := by
  unfold register
  rcases h with h | h | h | h
  · subst h
    rfl
  · subst h
    cases imageData with
    | none => rfl
    | some img =>
      cases features with
      | none => rfl
      | some f => simp
  · subst h
    cases username <;> rfl
  · subst h
    cases username <;> cases imageData <;> rfl

/-- C11 at the store of alice and the request with the empty username. -/
theorem register_missing_field_witness :
    register (some "") (some "img") (some [1, 0]) 1 [⟨"alice", "a", [1, 0], 0⟩] =
      (RegisterResponse.fieldsRequired, [⟨"alice", "a", [1, 0], 0⟩]) :=
  register_missing_field (some "") (some "img") (some [1, 0]) 1 [⟨"alice", "a", [1, 0], 0⟩]
    (Or.inr (Or.inl rfl))

/-! ### The store invariant and the delete handler -/

theorem uniqueUsernames_nil : uniqueUsernames [] := by
  simp [uniqueUsernames]

/-- The register handler keeps the usernames of the store unique. -/
theorem register_uniqueUsernames (username imageData : Option String)
    (features : Option (List ℝ)) (now : Nat) (users : List User)
    (hinv : uniqueUsernames users) :
    uniqueUsernames (register username imageData features now users).2 := by
  unfold register
  split
  · rename_i u img f
    by_cases hempty : u = "" ∨ img = ""
    · rw [if_pos hempty]
      exact hinv
    · rw [if_neg hempty]
      cases hfind : findOne u users with
      | some found => exact hinv
      | none =>
        unfold findOne at hfind
        have hnot : u ∉ users.map User.username := by
          intro hmem
          obtain ⟨a, ha, hau⟩ := List.mem_map.1 hmem
          have := List.find?_eq_none.1 hfind a ha
          simp [hau] at this
        unfold uniqueUsernames at hinv ⊢
        simp only [List.map_append, List.map_cons, List.map_nil]
        rw [List.nodup_append]
        refine ⟨hinv, List.nodup_singleton u, ?_⟩
        intro a ha hb
        rw [List.mem_singleton.1 hb] at ha
        exact hnot ha
  · exact hinv

/-- In a store of unique usernames, removing the first document of a username leaves exactly
the documents of the other usernames, in their order. -/
theorem eraseP_eq_filter_of_unique (u : String) (users : List User)
    (hinv : uniqueUsernames users) :
    users.eraseP (fun user => user.username == u) =
      users.filter (fun user => !(user.username == u)) := by
  induction users with
  | nil => rfl
  | cons x xs ih =>
    unfold uniqueUsernames at hinv
    rw [List.map_cons, List.nodup_cons] at hinv
    by_cases hx : x.username = u
    · have hrest : ∀ a ∈ xs, (!(a.username == u)) = true := by
        intro a ha
        have hne : a.username ≠ u := by
          intro hau
          apply hinv.1
          rw [hx, ← hau]
          exact List.mem_map_of_mem _ ha
        simp [hne]
      rw [List.eraseP_cons_of_pos (by simp [hx]), List.filter_cons_of_neg (by simp [hx]),
        List.filter_eq_self.2 hrest]
    · rw [List.eraseP_cons_of_neg (by simp [hx]), List.filter_cons_of_pos (by simp [hx]),
        ih hinv.2]

/-- A deletion answered "User deleted successfully" removed the first document of the
username. -/
theorem deleteUser_deleted (u : String) (users : List User)
    (hdel : (deleteUser u users).1 = DeleteResponse.deleted) :
    (deleteUser u users).2 = users.eraseP (fun user => user.username == u) := by
  unfold deleteUser at hdel ⊢
  cases hfind : findOne u users with
  | some found => rfl
  | none =>
    rw [hfind] at hdel
    cases hdel

/-- The delete handler keeps the usernames of the store unique. -/
theorem deleteUser_uniqueUsernames (u : String) (users : List User)
    (hinv : uniqueUsernames users) : uniqueUsernames (deleteUser u users).2 := by
  unfold deleteUser
  cases hfind : findOne u users with
  | none => exact hinv
  | some found =>
    show uniqueUsernames (users.eraseP (fun user => user.username == u))
    rw [eraseP_eq_filter_of_unique u users hinv]
    unfold uniqueUsernames at hinv ⊢
    exact (List.filter_sublist users).map User.username |>.nodup hinv

/-- A successful login names a user of the store. -/
theorem login_success_mem (features : JSValue) (users : List User) (name : String)
    (score : JSNumber) (h : login features users = LoginResponse.success name score) :
    ∃ e ∈ users, e.username = name := by
  cases features with
  | array q =>
    rcases login_cases q users with ⟨hres, _⟩ | ⟨pre, e, post, hsplit, hres, _, _, _⟩
    · rw [hres] at h
      cases h
    · rw [hres] at h
      injection h with hname _
      exact ⟨e, by rw [hsplit]; simp, hname⟩
  | _ =>
    exfalso
    unfold login at h
    rw [if_pos (by simp [JSValue.truthy, JSValue.isArray])] at h
    cases h

/-! ### The claim about the delete handler -/

/-- C12: for every store (its usernames unique, the invariant of the store) in which the
deletion of the username `u` succeeds, no login on the resulting store, whatever the request
and so for every query vector, is successful with the username `u`; and the resulting store
is made of exactly the users of a different username, unchanged and in their order. -/
theorem deleteUser_no_longer_matched (u : String) (users : List User)
    (hinv : uniqueUsernames users)
    (hdel : (deleteUser u users).1 = DeleteResponse.deleted) :
    (∀ features score,
        login features (deleteUser u users).2 ≠ LoginResponse.success u score) ∧
      (deleteUser u users).2 = users.filter (fun user => !(user.username == u)) := by
  have hstore : (deleteUser u users).2 = users.filter (fun user => !(user.username == u)) := by
    rw [deleteUser_deleted u users hdel, eraseP_eq_filter_of_unique u users hinv]
  refine ⟨?_, hstore⟩
  intro features score hlogin
  obtain ⟨e, he, hname⟩ := login_success_mem features _ u score hlogin
  rw [hstore] at he
  have hne := (List.mem_filter.1 he).2
  simp [hname] at hne

/-- C12 at the store of alice `[1, 0]` and bob `[0, 1]` and the deletion of alice: bob alone
is left and no login is answered with alice. -/
theorem deleteUser_no_longer_matched_witness :
    (∀ features score,
        login features
            (deleteUser "alice" [⟨"alice", "a", [1, 0], 0⟩, ⟨"bob", "b", [0, 1], 1⟩]).2 ≠
          LoginResponse.success "alice" score) ∧
      (deleteUser "alice" [⟨"alice", "a", [1, 0], 0⟩, ⟨"bob", "b", [0, 1], 1⟩]).2 =
        ([⟨"alice", "a", [1, 0], 0⟩, ⟨"bob", "b", [0, 1], 1⟩] : List User).filter
          (fun user => !(user.username == "alice")) :=
  deleteUser_no_longer_matched "alice" [⟨"alice", "a", [1, 0], 0⟩, ⟨"bob", "b", [0, 1], 1⟩]
    (by simp [uniqueUsernames]) (by decide)

/-! ### Rounding to binary64 -/

theorem roundEven_intCast (n : ℤ) : roundEven (n : ℝ) = n := by
  unfold roundEven
  rw [if_neg (by simp), round_intCast]

/-- Rounding to the nearest integer moves a real by at most one half. -/
theorem abs_roundEven_sub (y : ℝ) : |(roundEven y : ℝ) - y| ≤ 1 / 2 := by
  unfold roundEven
  by_cases h : Int.fract y = 1 / 2
  · rw [if_pos h]
    have hy : y = ⌊y⌋ + 1 / 2 := by
      rw [← h]
      exact (Int.floor_add_fract y).symm
    by_cases he : Even ⌊y⌋
    · rw [if_pos he]
      rw [abs_le]
      constructor <;> linarith
    · rw [if_neg he]
      push_cast
      rw [abs_le]
      constructor <;> linarith
  · rw [if_neg h, abs_sub_comm]
    exact abs_sub_round y

theorem ulp64_pos (x : ℝ) : 0 < ulp64 x := by
  unfold ulp64
  positivity

/-- The exponent of a number of magnitude at least `2^-1022` is its binary logarithm. -/
theorem exponent64_of_normal (x : ℝ) (h : (2 : ℝ) ^ (-1022 : ℤ) ≤ |x|) :
    exponent64 x = Int.log 2 |x| := by
  unfold exponent64
  have hpos : 0 < |x| := lt_of_lt_of_le (by positivity) h
  apply max_eq_left
  have := (Int.zpow_le_iff_le_log (b := 2) (by norm_num) hpos (x := -1022)).1 (by exact_mod_cast h)
  exact this

/-- In the normal range rounding to binary64 yields a finite number with a relative error of at
most `2^-53`. -/
theorem round64_relative (x : ℝ) (h1 : (2 : ℝ) ^ (-1022 : ℤ) ≤ |x|)
    (h2 : |x| ≤ (2 : ℝ) ^ (1023 : ℤ)) :
    ∃ y : ℝ, round64 x = JSNumber.finite y ∧ |y - x| ≤ (2 : ℝ) ^ (-53 : ℤ) * |x| := by
  have hpos : 0 < |x| := lt_of_lt_of_le (by positivity) h1
  have hq := ulp64_pos x
  have hexp := exponent64_of_normal x h1
  have hlow : (2 : ℝ) ^ (Int.log 2 |x|) ≤ |x| := by
    have := Int.zpow_log_le_self (b := 2) (by norm_num) hpos
    exact_mod_cast this
  have hulp : ulp64 x = (2 : ℝ) ^ (-52 : ℤ) * (2 : ℝ) ^ (Int.log 2 |x|) := by
    unfold ulp64
    rw [hexp, sub_eq_add_neg, zpow_add₀ (by norm_num : (2 : ℝ) ≠ 0), mul_comm]
  have herr : |(roundEven (x / ulp64 x) : ℝ) * ulp64 x - x| ≤ ulp64 x / 2 := by
    have h := abs_roundEven_sub (x / ulp64 x)
    have heq : (roundEven (x / ulp64 x) : ℝ) * ulp64 x - x =
        ((roundEven (x / ulp64 x) : ℝ) - x / ulp64 x) * ulp64 x := by
      field_simp
    rw [heq, abs_mul, abs_of_pos hq]
    calc |(roundEven (x / ulp64 x) : ℝ) - x / ulp64 x| * ulp64 x ≤ 1 / 2 * ulp64 x :=
          mul_le_mul_of_nonneg_right h hq.le
      _ = ulp64 x / 2 := by ring
  have hhalf : ulp64 x / 2 ≤ (2 : ℝ) ^ (-53 : ℤ) * |x| := by
    rw [hulp]
    have h53 : (2 : ℝ) ^ (-52 : ℤ) / 2 = (2 : ℝ) ^ (-53 : ℤ) := by norm_num
    calc (2 : ℝ) ^ (-52 : ℤ) * (2 : ℝ) ^ (Int.log 2 |x|) / 2
          = (2 : ℝ) ^ (-53 : ℤ) * (2 : ℝ) ^ (Int.log 2 |x|) := by rw [← h53]; ring
      _ ≤ (2 : ℝ) ^ (-53 : ℤ) * |x| := mul_le_mul_of_nonneg_left hlow (by positivity)
  have hrel : |(roundEven (x / ulp64 x) : ℝ) * ulp64 x - x| ≤ (2 : ℝ) ^ (-53 : ℤ) * |x| :=
    le_trans herr hhalf
  have hbound : |(roundEven (x / ulp64 x) : ℝ) * ulp64 x| < (2 : ℝ) ^ (1024 : ℤ) := by
    have htri : |(roundEven (x / ulp64 x) : ℝ) * ulp64 x| ≤
        |(roundEven (x / ulp64 x) : ℝ) * ulp64 x - x| + |x| := by
      have := abs_add ((roundEven (x / ulp64 x) : ℝ) * ulp64 x - x) x
      simpa using this
    have h1024 : (2 : ℝ) ^ (1024 : ℤ) = 2 * (2 : ℝ) ^ (1023 : ℤ) := by
      rw [show (1024 : ℤ) = 1 + 1023 by norm_num, zpow_add₀ (by norm_num : (2 : ℝ) ≠ 0), zpow_one]
    have hsmall : (2 : ℝ) ^ (-53 : ℤ) < 1 := by norm_num
    have : (2 : ℝ) ^ (-53 : ℤ) * |x| < |x| := by nlinarith
    rw [h1024]
    linarith
  have hb := abs_lt.1 hbound
  refine ⟨(roundEven (x / ulp64 x) : ℝ) * ulp64 x, ?_, hrel⟩
  unfold round64
  rw [if_neg (not_le.2 hb.2), if_neg (not_le.2 hb.1)]

/-- An integer of magnitude below `2^53` is a binary64 number: rounding leaves it as it is. -/
theorem round64_intCast (n : ℤ) (h : |(n : ℝ)| < (2 : ℝ) ^ (53 : ℤ)) :
    round64 (n : ℝ) = JSNumber.finite (n : ℝ) := by
  have hexp : exponent64 (n : ℝ) ≤ 52 := by
    unfold exponent64
    apply max_le _ (by norm_num)
    by_cases hn : |(n : ℝ)| ≤ 0
    · rw [Int.log_of_right_le_zero 2 hn]
      norm_num
    · have hpos : 0 < |(n : ℝ)| := not_le.1 hn
      have := (Int.lt_zpow_iff_log_lt (b := 2) (by norm_num) hpos (x := 53)).1 (by exact_mod_cast h)
      omega
  obtain ⟨k, hk⟩ : ∃ k : ℕ, exponent64 (n : ℝ) - 52 = -(k : ℤ) :=
    ⟨(52 - exponent64 (n : ℝ)).toNat, by omega⟩
  have hulp : ulp64 (n : ℝ) = ((2 : ℝ) ^ k)⁻¹ := by
    unfold ulp64
    rw [hk, zpow_neg, zpow_natCast]
  have hk0 : (0 : ℝ) < (2 : ℝ) ^ k := by positivity
  have hdiv : (n : ℝ) / ulp64 (n : ℝ) = ((n * 2 ^ k : ℤ) : ℝ) := by
    rw [hulp]
    push_cast
    field_simp
  have hy : (roundEven ((n : ℝ) / ulp64 (n : ℝ)) : ℝ) * ulp64 (n : ℝ) = (n : ℝ) := by
    rw [hdiv, roundEven_intCast, hulp]
    push_cast
    field_simp
  have h1024 : (2 : ℝ) ^ (53 : ℤ) ≤ (2 : ℝ) ^ (1024 : ℤ) :=
    zpow_le_zpow_right₀ (by norm_num) (by norm_num)
  have hb := abs_lt.1 (lt_of_lt_of_le h h1024)
  unfold round64
  rw [hy, if_neg (not_le.2 hb.2), if_neg (not_le.2 hb.1)]

theorem round64_zero : round64 0 = JSNumber.finite 0 := by
  have := round64_intCast 0 (by norm_num)
  simpa using this

theorem round64_one : round64 1 = JSNumber.finite 1 := by
  have := round64_intCast 1 (by norm_num)
  simpa using this

theorem round64_two : round64 2 = JSNumber.finite 2 := by
  have := round64_intCast 2 (by norm_num)
  simpa using this

/-! ### The similarity of a vector with itself in binary64 -/

/-- The square of a rounded square root: with a relative error of at most `u` on the root `r`
of `v`, the product `r * r` lies between `(1 - u)^2 * v` and `(1 + u)^2 * v`. -/
theorem square_near (u v r : ℝ) (hu0 : 0 ≤ u) (hu : u ≤ 1 / 100) (hv : 0 < v)
    (hr : |r - Real.sqrt v| ≤ u * Real.sqrt v) :
    0 < r ∧ (1 - u) ^ 2 * v ≤ r * r ∧ r * r ≤ (1 + u) ^ 2 * v := by
  have hs : 0 < Real.sqrt v := Real.sqrt_pos.2 hv
  have hss : Real.sqrt v * Real.sqrt v = v := Real.mul_self_sqrt hv.le
  obtain ⟨hr1, hr2⟩ := abs_le.1 hr
  have hrlo : (1 - u) * Real.sqrt v ≤ r := by linarith
  have hrhi : r ≤ (1 + u) * Real.sqrt v := by linarith
  have hu1 : 0 < 1 - u := by linarith
  have hrpos : 0 < r := lt_of_lt_of_le (mul_pos hu1 hs) hrlo
  refine ⟨hrpos, ?_, ?_⟩
  · have := mul_le_mul hrlo hrlo (mul_pos hu1 hs).le hrpos.le
    calc (1 - u) ^ 2 * v = (1 - u) ^ 2 * (Real.sqrt v * Real.sqrt v) := by rw [hss]
      _ = (1 - u) * Real.sqrt v * ((1 - u) * Real.sqrt v) := by ring
      _ ≤ r * r := this
  · have := mul_le_mul hrhi hrhi hrpos.le (by positivity : 0 ≤ (1 + u) * Real.sqrt v)
    calc r * r ≤ (1 + u) * Real.sqrt v * ((1 + u) * Real.sqrt v) := this
      _ = (1 + u) ^ 2 * (Real.sqrt v * Real.sqrt v) := by ring
      _ = (1 + u) ^ 2 * v := by rw [hss]

/-- The rounded square `w` of a rounded square root `r` of `v`, each with a relative error of
at most `u`, lies between `(1 - u)^3 * v` and `(1 + u)^3 * v`. -/
theorem product_near (u v r w : ℝ) (hu0 : 0 ≤ u) (hu : u ≤ 1 / 100) (hv : 0 < v)
    (hr : |r - Real.sqrt v| ≤ u * Real.sqrt v) (hw : |w - r * r| ≤ u * (r * r)) :
    0 < w ∧ (1 - u) ^ 3 * v ≤ w ∧ w ≤ (1 + u) ^ 3 * v := by
  obtain ⟨_, hrrlo, hrrhi⟩ := square_near u v r hu0 hu hv hr
  have hu1 : 0 < 1 - u := by linarith
  obtain ⟨hw1, hw2⟩ := abs_le.1 hw
  have hwlo : (1 - u) ^ 3 * v ≤ w := by
    have h1 : (1 - u) * (r * r) ≤ w := by linarith
    have h2 : (1 - u) * ((1 - u) ^ 2 * v) ≤ (1 - u) * (r * r) :=
      mul_le_mul_of_nonneg_left hrrlo hu1.le
    calc (1 - u) ^ 3 * v = (1 - u) * ((1 - u) ^ 2 * v) := by ring
      _ ≤ w := le_trans h2 h1
  have hwhi : w ≤ (1 + u) ^ 3 * v := by
    have h1 : w ≤ (1 + u) * (r * r) := by linarith
    have h2 : (1 + u) * (r * r) ≤ (1 + u) * ((1 + u) ^ 2 * v) :=
      mul_le_mul_of_nonneg_left hrrhi (by linarith)
    calc w ≤ (1 + u) * ((1 + u) ^ 2 * v) := le_trans h1 h2
      _ = (1 + u) ^ 3 * v := by ring
  exact ⟨lt_of_lt_of_le (by positivity) hwlo, hwlo, hwhi⟩

/-- The quotient of `v` by a number `w` between `(1 - u)^3 * v` and `(1 + u)^3 * v` lies
between `(1 + u)^-3` and `(1 - u)^-3`. -/
theorem quotient_bounds (u v w : ℝ) (hv : 0 < v) (hwpos : 0 < w)
    (hwlo : (1 - u) ^ 3 * v ≤ w) (hwhi : w ≤ (1 + u) ^ 3 * v) :
    0 < v / w ∧ v / w * (1 - u) ^ 3 ≤ 1 ∧ 1 ≤ v / w * (1 + u) ^ 3 := by
  have htpos : 0 < v / w := div_pos hv hwpos
  have htw : v / w * w = v := div_mul_cancel₀ v hwpos.ne'
  refine ⟨htpos, ?_, ?_⟩
  · have h : v / w * ((1 - u) ^ 3 * v) ≤ v / w * w := mul_le_mul_of_nonneg_left hwlo htpos.le
    rw [htw] at h
    have h' : (v / w * (1 - u) ^ 3) * v ≤ 1 * v := by linarith
    exact le_of_mul_le_mul_right h' hv
  · have h : v / w * w ≤ v / w * ((1 + u) ^ 3 * v) := mul_le_mul_of_nonneg_left hwhi htpos.le
    rw [htw] at h
    have h' : 1 * v ≤ (v / w * (1 + u) ^ 3) * v := by linarith
    exact le_of_mul_le_mul_right h' hv

/-- The error of the three rounded operations of line 21 on a positive squared norm `v`: with
the rounded square `w` of the rounded root as above, the rounded quotient `q` of `v` by `w` is
within `8 * u` of `1`. -/
theorem quotient_near_one (u v w q : ℝ) (hu0 : 0 ≤ u) (hu : u ≤ 1 / 100) (hv : 0 < v)
    (hwpos : 0 < w) (hwlo : (1 - u) ^ 3 * v ≤ w) (hwhi : w ≤ (1 + u) ^ 3 * v)
    (hq : |q - v / w| ≤ u * (v / w)) : |q - 1| ≤ 8 * u := by
  obtain ⟨htpos, hthi, htlo⟩ := quotient_bounds u v w hv hwpos hwlo hwhi
  obtain ⟨hq1, hq2⟩ := abs_le.1 hq
  have hqhi : q ≤ (1 + u) * (v / w) := by linarith
  have hqlo : (1 - u) * (v / w) ≤ q := by linarith
  have hpoly1 : 1 + u ≤ (1 + 8 * u) * (1 - u) ^ 3 := by nlinarith [mul_nonneg hu0 hu0]
  have hpoly2 : (1 - 8 * u) * (1 + u) ^ 3 ≤ 1 - u := by nlinarith [mul_nonneg hu0 hu0]
  refine abs_le.2 ⟨?_, ?_⟩
  · have h8 : 0 ≤ 1 - 8 * u := by linarith
    have h1 : (1 - 8 * u) * 1 ≤ (1 - 8 * u) * (v / w * (1 + u) ^ 3) :=
      mul_le_mul_of_nonneg_left htlo h8
    have h2 : (1 - 8 * u) * (1 + u) ^ 3 * (v / w) ≤ (1 - u) * (v / w) :=
      mul_le_mul_of_nonneg_right hpoly2 htpos.le
    have h3 : (1 - 8 * u) * (v / w * (1 + u) ^ 3) = (1 - 8 * u) * (1 + u) ^ 3 * (v / w) := by
      ring
    linarith
  · have h1 : (1 + u) * (v / w) ≤ (1 + 8 * u) * (1 - u) ^ 3 * (v / w) :=
      mul_le_mul_of_nonneg_right hpoly1 htpos.le
    have h2 : (1 + 8 * u) * (v / w * (1 - u) ^ 3) ≤ (1 + 8 * u) * 1 :=
      mul_le_mul_of_nonneg_left hthi (by linarith)
    have h3 : (1 + 8 * u) * (v / w * (1 - u) ^ 3) = (1 + 8 * u) * (1 - u) ^ 3 * (v / w) := by
      ring
    linarith

theorem simLoop64_cons (acc : SimAcc64) (p : ℝ × ℝ) (ps : List (ℝ × ℝ)) :
    simLoop64 acc (p :: ps) = simLoop64 (simStep64 acc p) ps := rfl

/-- On pairs of equal components the three binary64 accumulators stay equal: they are computed
by the same operations. -/
theorem simLoop64_diag (ps : List (ℝ × ℝ)) (acc : SimAcc64) (h : ∀ p ∈ ps, p.1 = p.2)
    (hd : acc.dotProduct = acc.norm1) (hn : acc.norm2 = acc.norm1) :
    (simLoop64 acc ps).dotProduct = (simLoop64 acc ps).norm1 ∧
      (simLoop64 acc ps).norm2 = (simLoop64 acc ps).norm1 := by
  induction ps generalizing acc with
  | nil => exact ⟨hd, hn⟩
  | cons q ps ih =>
    rw [simLoop64_cons]
    have hq : q.1 = q.2 := h q (List.mem_cons_self _ _)
    apply ih _ (fun p hp => h p (List.mem_cons_of_mem _ hp))
    · simp [simStep64, hd, hq]
    · simp [simStep64, hn, hq]

/-- Line 21 for a vector and itself: the computed squared norm over the product of its two
square roots. -/
theorem calculateSimilarity64_self_eq (a : List ℝ) :
    calculateSimilarity64 a a =
      (squaredNorm64 a).div64 ((squaredNorm64 a).sqrt64.mul64 (squaredNorm64 a).sqrt64) := by
  obtain ⟨hd, hn⟩ := simLoop64_diag (a.zip a)
    ⟨JSNumber.finite 0, JSNumber.finite 0, JSNumber.finite 0⟩
    (fun q hq => fst_eq_snd_of_mem_zip_self a q hq) rfl rfl
  unfold calculateSimilarity64 squaredNorm64
  rw [if_neg (not_not.2 rfl)]
  simp only [hd, hn]

/-- Pairs of zeros leave the binary64 accumulators at zero. -/
theorem simLoop64_zero (ps : List (ℝ × ℝ)) (h : ∀ p ∈ ps, p.1 = 0 ∧ p.2 = 0) :
    simLoop64 ⟨JSNumber.finite 0, JSNumber.finite 0, JSNumber.finite 0⟩ ps =
      ⟨JSNumber.finite 0, JSNumber.finite 0, JSNumber.finite 0⟩ := by
  induction ps with
  | nil => rfl
  | cons q ps ih =>
    rw [simLoop64_cons]
    obtain ⟨h1, h2⟩ := h q (List.mem_cons_self _ _)
    have hstep : simStep64 ⟨JSNumber.finite 0, JSNumber.finite 0, JSNumber.finite 0⟩ q =
        ⟨JSNumber.finite 0, JSNumber.finite 0, JSNumber.finite 0⟩ := by
      simp [simStep64, h1, h2, JSNumber.add64, JSNumber.mul64, round64_zero]
    rw [hstep]
    exact ih (fun p hp => h p (List.mem_cons_of_mem _ hp))

/-- The computed squared norm of the zero vector, the empty vector included, is zero. -/
theorem squaredNorm64_of_zero (a : List ℝ) (h : ∀ x ∈ a, x = 0) :
    squaredNorm64 a = JSNumber.finite 0 := by
  unfold squaredNorm64
  rw [simLoop64_zero (a.zip a) (fun p hp =>
    ⟨h p.1 (List.of_mem_zip hp).1, h p.2 (List.of_mem_zip hp).2⟩)]

/-- A computed squared norm of zero makes line 21 divide zero by zero. -/
theorem calculateSimilarity64_self_of_norm_zero (a : List ℝ)
    (h : squaredNorm64 a = JSNumber.finite 0) : calculateSimilarity64 a a = JSNumber.nan := by
  rw [calculateSimilarity64_self_eq, h]
  simp [JSNumber.sqrt64, JSNumber.mul64, JSNumber.div64, round64_zero]

/-- An overflowed squared norm makes line 21 divide infinity by infinity. -/
theorem calculateSimilarity64_self_of_norm_inf (a : List ℝ)
    (h : squaredNorm64 a = JSNumber.posInf) : calculateSimilarity64 a a = JSNumber.nan := by
  rw [calculateSimilarity64_self_eq, h]
  rfl

theorem JSNumber.sqrt64_finite (x : ℝ) (hx : 0 ≤ x) :
    (JSNumber.finite x).sqrt64 = round64 (Real.sqrt x) := by
  show (if x < 0 then JSNumber.nan else round64 (Real.sqrt x)) = round64 (Real.sqrt x)
  rw [if_neg (not_lt.2 hx)]

theorem JSNumber.mul64_finite (x y : ℝ) :
    (JSNumber.finite x).mul64 (JSNumber.finite y) = round64 (x * y) := rfl

theorem JSNumber.div64_finite (x y : ℝ) (hy : y ≠ 0) :
    (JSNumber.finite x).div64 (JSNumber.finite y) = round64 (x / y) := by
  show (if y = 0 then (if x = 0 then JSNumber.nan else if 0 < x then JSNumber.posInf
    else JSNumber.negInf) else round64 (x / y)) = round64 (x / y)
  rw [if_neg hy]

/-- For a relative error `u` of at most one hundredth the factors `(1 - u)^2`, `(1 - u)^3`,
`(1 + u)^2` and `(1 + u)^3` lie between one half and two. -/
theorem pow_bounds (u : ℝ) (hu0 : 0 ≤ u) (hu : u ≤ 1 / 100) :
    1 / 2 ≤ (1 - u) ^ 2 ∧ (1 + u) ^ 2 ≤ 2 ∧ 1 / 2 ≤ (1 - u) ^ 3 ∧ (1 + u) ^ 3 ≤ 2 := by
  have huu : 0 ≤ u * u := mul_nonneg hu0 hu0
  have huu1 : u * u ≤ 1 / 100 * u := mul_le_mul_of_nonneg_right hu hu0
  have huuu : 0 ≤ u * u * u := mul_nonneg huu hu0
  have huuu1 : u * u * u ≤ 1 / 100 * (u * u) := by
    have := mul_le_mul_of_nonneg_right hu huu
    linarith
  refine ⟨?_, ?_, ?_, ?_⟩
  · have : (1 - u) ^ 2 = 1 - 2 * u + u * u := by ring
    linarith
  · have : (1 + u) ^ 2 = 1 + 2 * u + u * u := by ring
    linarith
  · have : (1 - u) ^ 3 = 1 - 3 * u + 3 * (u * u) - u * u * u := by ring
    linarith
  · have : (1 + u) ^ 3 = 1 + 3 * u + 3 * (u * u) + u * u * u := by ring
    linarith

/-- The three operations of line 21 on a squared norm `v` between `2 * m` and `M / 2`, where
rounding has a relative error of at most `u` between `m` and `M`: the result is a finite
number within `8 * u` of `1`. -/
theorem self_quotient_of_relative (u m M v : ℝ) (hu0 : 0 ≤ u) (hu : u ≤ 1 / 100)
    (hm0 : 0 < m) (hm1 : m ≤ 1 / 2) (hM : 2 ≤ M)
    (hround : ∀ x : ℝ, m ≤ |x| → |x| ≤ M →
      ∃ y : ℝ, round64 x = JSNumber.finite y ∧ |y - x| ≤ u * |x|)
    (hlo : 2 * m ≤ v) (hhi : v ≤ M / 2) :
    ∃ s : ℝ, (JSNumber.finite v).div64
        ((JSNumber.finite v).sqrt64.mul64 (JSNumber.finite v).sqrt64) = JSNumber.finite s ∧
      |s - 1| ≤ 8 * u := by
  obtain ⟨hb1, hb2, hb3, hb4⟩ := pow_bounds u hu0 hu
  have hv : 0 < v := by linarith
  -- the square root
  have hroot_lo : m ≤ |Real.sqrt v| := by
    rw [abs_of_nonneg (Real.sqrt_nonneg v), Real.le_sqrt' hm0]
    have hsq : m ^ 2 ≤ 1 / 2 * m := by
      have := mul_le_mul_of_nonneg_right hm1 hm0.le
      calc m ^ 2 = m * m := by ring
        _ ≤ 1 / 2 * m := this
    linarith
  have hroot_hi : |Real.sqrt v| ≤ M := by
    rw [abs_of_nonneg (Real.sqrt_nonneg v), Real.sqrt_le_left (by linarith)]
    have hsq : 2 * M ≤ M ^ 2 := by
      have := mul_le_mul_of_nonneg_right hM (by linarith : (0 : ℝ) ≤ M)
      calc 2 * M ≤ M * M := this
        _ = M ^ 2 := by ring
    linarith
  obtain ⟨r, hr_eq, hr⟩ := hround (Real.sqrt v) hroot_lo hroot_hi
  rw [abs_of_nonneg (Real.sqrt_nonneg v)] at hr
  -- the product of the two roots
  obtain ⟨hrpos, hrrlo, hrrhi⟩ := square_near u v r hu0 hu hv hr
  have hrr : 0 < r * r := mul_pos hrpos hrpos
  have hprod_lo : m ≤ |r * r| := by
    rw [abs_of_pos hrr]
    have := mul_le_mul_of_nonneg_right hb1 hv.le
    linarith
  have hprod_hi : |r * r| ≤ M := by
    rw [abs_of_pos hrr]
    have := mul_le_mul_of_nonneg_right hb2 hv.le
    linarith
  obtain ⟨w, hw_eq, hw⟩ := hround (r * r) hprod_lo hprod_hi
  rw [abs_of_pos hrr] at hw
  obtain ⟨hwpos, hwlo, hwhi⟩ := product_near u v r w hu0 hu hv hr hw
  -- the quotient
  obtain ⟨htpos, hthi, htlo⟩ := quotient_bounds u v w hv hwpos hwlo hwhi
  have hquot_lo : m ≤ |v / w| := by
    rw [abs_of_pos htpos]
    have := mul_le_mul_of_nonneg_left hb4 htpos.le
    linarith
  have hquot_hi : |v / w| ≤ M := by
    rw [abs_of_pos htpos]
    have := mul_le_mul_of_nonneg_left hb3 htpos.le
    linarith
  obtain ⟨q, hq_eq, hq⟩ := hround (v / w) hquot_lo hquot_hi
  rw [abs_of_pos htpos] at hq
  refine ⟨q, ?_, quotient_near_one u v w q hu0 hu hv hwpos hwlo hwhi hq⟩
  rw [JSNumber.sqrt64_finite v hv.le, hr_eq, JSNumber.mul64_finite, hw_eq,
    JSNumber.div64_finite v w hwpos.ne', hq_eq]

/-- A computed squared norm `v` between `2^-1021` and `2^1022`, clear of underflow and of
overflow, makes line 21 yield a finite number within `2^-50` of `1`. -/
theorem calculateSimilarity64_self_of_norm_normal (a : List ℝ) (v : ℝ)
    (h : squaredNorm64 a = JSNumber.finite v) (hlo : (2 : ℝ) ^ (-1021 : ℤ) ≤ v)
    (hhi : v ≤ (2 : ℝ) ^ (1022 : ℤ)) :
    ∃ s : ℝ, calculateSimilarity64 a a = JSNumber.finite s ∧ |s - 1| ≤ (2 : ℝ) ^ (-50 : ℤ) := by
  have hu0 : (0 : ℝ) ≤ (2 : ℝ) ^ (-53 : ℤ) := by positivity
  have hu : (2 : ℝ) ^ (-53 : ℤ) ≤ 1 / 100 := by norm_num
  have h8 : 8 * (2 : ℝ) ^ (-53 : ℤ) = (2 : ℝ) ^ (-50 : ℤ) := by norm_num
  have hmin : (2 : ℝ) ^ (-1021 : ℤ) = 2 * (2 : ℝ) ^ (-1022 : ℤ) := by
    rw [show (-1021 : ℤ) = 1 + -1022 by norm_num, zpow_add₀ (by norm_num : (2 : ℝ) ≠ 0), zpow_one]
  have hmax : (2 : ℝ) ^ (1023 : ℤ) = 2 * (2 : ℝ) ^ (1022 : ℤ) := by
    rw [show (1023 : ℤ) = 1 + 1022 by norm_num, zpow_add₀ (by norm_num : (2 : ℝ) ≠ 0), zpow_one]
  have hmin0 : (0 : ℝ) < (2 : ℝ) ^ (-1022 : ℤ) := by positivity
  have hmin1 : (2 : ℝ) ^ (-1022 : ℤ) ≤ 1 / 2 :=
    le_trans (zpow_le_zpow_right₀ (by norm_num) (by norm_num : (-1022 : ℤ) ≤ -1)) (by norm_num)
  have hmax1 : (2 : ℝ) ≤ (2 : ℝ) ^ (1023 : ℤ) :=
    le_trans (by norm_num) (zpow_le_zpow_right₀ (by norm_num) (by norm_num : (1 : ℤ) ≤ 1023))
  rw [calculateSimilarity64_self_eq, h, ← h8]
  exact self_quotient_of_relative _ _ _ v hu0 hu hmin0 hmin1 hmax1 round64_relative
    (by rw [← hmin]; exact hlo) (by rw [hmax]; linarith)

/-! ### The login handler in binary64 -/

/-- The binary64 number of the literal `0.7` lies strictly between `0` and `1 - 2^-50`. -/
theorem threshold64_spec :
    ∃ t : ℝ, threshold64 = JSNumber.finite t ∧ 0 < t ∧ t < 1 - (2 : ℝ) ^ (-50 : ℤ) := by
  have hlo : (2 : ℝ) ^ (-1022 : ℤ) ≤ |(0.7 : ℝ)| := by
    rw [abs_of_pos (by norm_num)]
    exact le_trans (zpow_le_zpow_right₀ (by norm_num) (by norm_num : (-1022 : ℤ) ≤ -1))
      (by norm_num)
  have hhi : |(0.7 : ℝ)| ≤ (2 : ℝ) ^ (1023 : ℤ) := by
    rw [abs_of_pos (by norm_num)]
    exact le_trans (by norm_num) (zpow_le_zpow_right₀ (by norm_num) (by norm_num : (0 : ℤ) ≤ 1023))
  obtain ⟨t, ht, herr⟩ := round64_relative 0.7 hlo hhi
  rw [abs_of_pos (by norm_num : (0 : ℝ) < 0.7)] at herr
  obtain ⟨h1, h2⟩ := abs_le.1 herr
  have hu : (2 : ℝ) ^ (-53 : ℤ) ≤ 1 / 100 := by norm_num
  have hu0 : (0 : ℝ) ≤ (2 : ℝ) ^ (-53 : ℤ) := by positivity
  have h50 : (2 : ℝ) ^ (-50 : ℤ) ≤ 1 / 100 := by norm_num
  have hp : (2 : ℝ) ^ (-53 : ℤ) * 0.7 ≤ 1 / 100 * 0.7 :=
    mul_le_mul_of_nonneg_right hu (by norm_num)
  have hp0 : (0 : ℝ) ≤ (2 : ℝ) ^ (-53 : ℤ) * 0.7 := by positivity
  refine ⟨t, ht, ?_, ?_⟩
  · norm_num at hp h1 ⊢
    linarith
  · norm_num at hp h2 h50 ⊢
    linarith

theorem threshold64_pos : threshold64.gt (JSNumber.finite 0) := by
  obtain ⟨t, ht, h0, _⟩ := threshold64_spec
  rw [ht, JSNumber.finite_gt_finite]
  exact h0

theorem loginScan64_append (q : List ℝ) (users : List User) (user : User) :
    loginScan64 q (users ++ [user]) = loginStep64 q (loginScan64 q users) user := by
  unfold loginScan64
  rw [List.foldl_append]
  rfl

/-- The state of the binary64 scan after any list of users: either nothing was above the
threshold and the variables are as initialised, or they hold the first user attaining the
greatest similarity, which is above the threshold. -/
theorem loginScan64_spec (q : List ℝ) (users : List User) :
    ((loginScan64 q users).bestMatch = none ∧
        (loginScan64 q users).bestSimilarity = JSNumber.finite 0 ∧
        ∀ u ∈ users, ¬ (calculateSimilarity64 q u.features).gt threshold64) ∨
      ∃ pre e post, users = pre ++ e :: post ∧
        loginScan64 q users = ⟨some e, calculateSimilarity64 q e.features⟩ ∧
        (calculateSimilarity64 q e.features).gt threshold64 ∧
        (∀ u ∈ users, ¬ (calculateSimilarity64 q u.features).gt
          (calculateSimilarity64 q e.features)) ∧
        ∀ u ∈ pre, calculateSimilarity64 q u.features ≠ calculateSimilarity64 q e.features := by
  induction users using List.reverseRecOn with
  | nil =>
    left
    exact ⟨rfl, rfl, fun u hu => by cases hu⟩
  | append_singleton users user ih =>
    rw [loginScan64_append]
    by_cases hup : (calculateSimilarity64 q user.features).gt
        (loginScan64 q users).bestSimilarity ∧
        (calculateSimilarity64 q user.features).gt threshold64
    · right
      have hstep : loginStep64 q (loginScan64 q users) user =
          ⟨some user, calculateSimilarity64 q user.features⟩ := by
        unfold loginStep64
        exact if_pos hup
      refine ⟨users, user, [], rfl, hstep, hup.2, ?_, ?_⟩
      · intro u hu
        rcases List.mem_append.1 hu with hu | hu
        · rcases ih with ⟨_, _, hall⟩ | ⟨pre, e, post, _, hst, _, hall, _⟩
          · exact fun hgt => hall u hu (JSNumber.gt_trans hgt hup.2)
          · rw [hst] at hup
            exact fun hgt => hall u hu (JSNumber.gt_trans hgt hup.1)
        · rw [List.mem_singleton.1 hu]
          exact JSNumber.gt_irrefl _
      · intro u hu heq
        rcases ih with ⟨_, _, hall⟩ | ⟨pre, e, post, _, hst, _, hall, _⟩
        · exact hall u hu (heq ▸ hup.2)
        · rw [hst] at hup
          exact hall u hu (heq ▸ hup.1)
    · have hstep : loginStep64 q (loginScan64 q users) user = loginScan64 q users := by
        unfold loginStep64
        exact if_neg hup
      rw [hstep]
      rcases ih with ⟨hnone, hzero, hall⟩ | ⟨pre, e, post, hsplit, hst, hthr, hall, hfirst⟩
      · left
        refine ⟨hnone, hzero, ?_⟩
        intro u hu
        rcases List.mem_append.1 hu with hu | hu
        · exact hall u hu
        · rw [List.mem_singleton.1 hu]
          intro hgt
          apply hup
          rw [hzero]
          exact ⟨JSNumber.gt_trans hgt threshold64_pos, hgt⟩
      · right
        refine ⟨pre, e, post ++ [user], ?_, hst, hthr, ?_, hfirst⟩
        · rw [hsplit]
          simp
        · intro u hu
          rcases List.mem_append.1 hu with hu | hu
          · exact hall u hu
          · rw [List.mem_singleton.1 hu]
            intro hgt
            apply hup
            rw [hst]
            exact ⟨hgt, JSNumber.gt_trans hgt hthr⟩

theorem login64_array (q : List ℝ) (users : List User) :
    login64 (JSValue.array q) users =
      match (loginScan64 q users).bestMatch with
      | some user => LoginResponse.success user.username (loginScan64 q users).bestSimilarity
      | none => LoginResponse.unauthorized := by
  unfold login64
  rw [if_neg (by simp [JSValue.truthy, JSValue.isArray])]
  rfl

/-- The response of the binary64 login handler to a feature array: "Face not recognized" when
no similarity is above the threshold, otherwise the first user attaining the greatest
similarity, with that similarity. -/
theorem login64_cases (q : List ℝ) (users : List User) :
    (login64 (JSValue.array q) users = LoginResponse.unauthorized ∧
        ∀ u ∈ users, ¬ (calculateSimilarity64 q u.features).gt threshold64) ∨
      ∃ pre e post, users = pre ++ e :: post ∧
        login64 (JSValue.array q) users =
          LoginResponse.success e.username (calculateSimilarity64 q e.features) ∧
        (calculateSimilarity64 q e.features).gt threshold64 ∧
        (∀ u ∈ users, ¬ (calculateSimilarity64 q u.features).gt
          (calculateSimilarity64 q e.features)) ∧
        ∀ u ∈ pre, calculateSimilarity64 q u.features ≠ calculateSimilarity64 q e.features := by
  rw [login64_array]
  rcases loginScan64_spec q users with
    ⟨hnone, _, hall⟩ | ⟨pre, e, post, hsplit, hst, hthr, hall, hfirst⟩
  · left
    rw [hnone]
    exact ⟨rfl, hall⟩
  · right
    refine ⟨pre, e, post, hsplit, ?_, hthr, hall, hfirst⟩
    rw [hst]

/-! ### Overflow and underflow -/

/-- A power of two from `2^1024` on rounds to infinity. -/
theorem round64_zpow_overflow (k : ℤ) (hk : 1024 ≤ k) :
    round64 ((2 : ℝ) ^ k) = JSNumber.posInf := by
  have hpos : (0 : ℝ) < (2 : ℝ) ^ k := by positivity
  have hlog : Int.log 2 |(2 : ℝ) ^ k| = k := by
    rw [abs_of_pos hpos]
    have := Int.log_zpow (R := ℝ) (b := 2) (by norm_num) k
    exact_mod_cast this
  have hulp : ulp64 ((2 : ℝ) ^ k) = (2 : ℝ) ^ (k - 52) := by
    unfold ulp64 exponent64
    rw [hlog, max_eq_left (by omega)]
  have hdiv : (2 : ℝ) ^ k / (2 : ℝ) ^ (k - 52) = (((2 : ℤ) ^ 52 : ℤ) : ℝ) := by
    rw [← zpow_sub₀ (by norm_num : (2 : ℝ) ≠ 0)]
    norm_num
  have hy : (roundEven ((2 : ℝ) ^ k / ulp64 ((2 : ℝ) ^ k)) : ℝ) * ulp64 ((2 : ℝ) ^ k) =
      (2 : ℝ) ^ k := by
    have h52 : ((((2 : ℤ) ^ 52 : ℤ)) : ℝ) = (2 : ℝ) ^ (52 : ℤ) := by norm_num
    rw [hulp, hdiv, roundEven_intCast, h52, ← zpow_add₀ (by norm_num : (2 : ℝ) ≠ 0)]
    congr 1
    ring
  unfold round64
  rw [hy, if_pos (zpow_le_zpow_right₀ (by norm_num) hk)]

/-- A real of magnitude below one half rounds to the integer zero. -/
theorem roundEven_of_abs_lt_half (y : ℝ) (h0 : 0 ≤ y) (h : y < 1 / 2) : roundEven y = 0 := by
  have hfloor : ⌊y⌋ = 0 := Int.floor_eq_zero_iff.2 ⟨h0, by linarith⟩
  have hfract : Int.fract y = y := by
    rw [Int.fract, hfloor]
    simp
  unfold roundEven
  rw [if_neg (by rw [hfract]; linarith), round_eq]
  exact Int.floor_eq_zero_iff.2 ⟨by linarith, by linarith⟩

/-- A power of two below `2^-1075` rounds to zero. -/
theorem round64_zpow_underflow (k : ℤ) (hk : k ≤ -1076) :
    round64 ((2 : ℝ) ^ k) = JSNumber.finite 0 := by
  have hpos : (0 : ℝ) < (2 : ℝ) ^ k := by positivity
  have hlog : Int.log 2 |(2 : ℝ) ^ k| = k := by
    rw [abs_of_pos hpos]
    have := Int.log_zpow (R := ℝ) (b := 2) (by norm_num) k
    exact_mod_cast this
  have hulp : ulp64 ((2 : ℝ) ^ k) = (2 : ℝ) ^ (-1074 : ℤ) := by
    unfold ulp64 exponent64
    rw [hlog, max_eq_right (by omega)]
    norm_num
  have hdiv : (2 : ℝ) ^ k / (2 : ℝ) ^ (-1074 : ℤ) = (2 : ℝ) ^ (k + 1074) := by
    rw [← zpow_sub₀ (by norm_num : (2 : ℝ) ≠ 0)]
    congr 1
  have hsmall : (2 : ℝ) ^ (k + 1074) < 1 / 2 :=
    lt_of_le_of_lt (zpow_le_zpow_right₀ (by norm_num) (by omega : k + 1074 ≤ -2))
      (by norm_num)
  have hy : (roundEven ((2 : ℝ) ^ k / ulp64 ((2 : ℝ) ^ k)) : ℝ) * ulp64 ((2 : ℝ) ^ k) = 0 := by
    rw [hulp, hdiv, roundEven_of_abs_lt_half _ (by positivity) hsmall]
    simp
  have h1024 : (0 : ℝ) < (2 : ℝ) ^ (1024 : ℤ) := by positivity
  unfold round64
  rw [hy, if_neg (not_le.2 h1024), if_neg (by linarith)]

/-! ### Concrete evaluations in binary64 -/

theorem calculateSimilarity64_unit : calculateSimilarity64 [1, 0] [1, 0] = JSNumber.finite 1 := by
  norm_num [calculateSimilarity64, simLoop64, simStep64, JSNumber.add64, JSNumber.mul64,
    JSNumber.sqrt64, JSNumber.div64, round64_zero, round64_one]

theorem squaredNorm64_ones : squaredNorm64 [1, 1] = JSNumber.finite 2 := by
  simp [squaredNorm64, simLoop64, simStep64, JSNumber.add64, JSNumber.mul64, round64_one]
  norm_num [round64_two]

theorem squaredNorm64_large : squaredNorm64 [(2 : ℝ) ^ (600 : ℤ)] = JSNumber.posInf := by
  have h : (2 : ℝ) ^ (600 : ℤ) * (2 : ℝ) ^ (600 : ℤ) = (2 : ℝ) ^ (1200 : ℤ) := by
    rw [← zpow_add₀ (by norm_num : (2 : ℝ) ≠ 0)]
    norm_num
  simp only [squaredNorm64, List.zip_cons_cons, List.zip_nil_right, simLoop64, List.foldl_cons,
    List.foldl_nil, simStep64, JSNumber.mul64, h, round64_zpow_overflow 1200 (by norm_num)]
  rfl

theorem squaredNorm64_small : squaredNorm64 [(2 : ℝ) ^ (-600 : ℤ)] = JSNumber.finite 0 := by
  have h : (2 : ℝ) ^ (-600 : ℤ) * (2 : ℝ) ^ (-600 : ℤ) = (2 : ℝ) ^ (-1200 : ℤ) := by
    rw [← zpow_add₀ (by norm_num : (2 : ℝ) ≠ 0)]
    norm_num
  simp only [squaredNorm64, List.zip_cons_cons, List.zip_nil_right, simLoop64, List.foldl_cons,
    List.foldl_nil, simStep64, JSNumber.mul64, h, round64_zpow_underflow (-1200) (by norm_num)]
  simp [JSNumber.add64, round64_zero]

/-- A power of two in the normal range is a binary64 number: rounding leaves it as it is. -/
theorem round64_zpow_normal (k : ℤ) (hlo : -1022 ≤ k) (hhi : k ≤ 1023) :
    round64 ((2 : ℝ) ^ k) = JSNumber.finite ((2 : ℝ) ^ k) := by
  have hpos : (0 : ℝ) < (2 : ℝ) ^ k := by positivity
  have hlog : Int.log 2 |(2 : ℝ) ^ k| = k := by
    rw [abs_of_pos hpos]
    have := Int.log_zpow (R := ℝ) (b := 2) (by norm_num) k
    exact_mod_cast this
  have hulp : ulp64 ((2 : ℝ) ^ k) = (2 : ℝ) ^ (k - 52) := by
    unfold ulp64 exponent64
    rw [hlog, max_eq_left (by omega)]
  have hdiv : (2 : ℝ) ^ k / (2 : ℝ) ^ (k - 52) = (((2 : ℤ) ^ 52 : ℤ) : ℝ) := by
    rw [← zpow_sub₀ (by norm_num : (2 : ℝ) ≠ 0)]
    norm_num
  have hy : (roundEven ((2 : ℝ) ^ k / ulp64 ((2 : ℝ) ^ k)) : ℝ) * ulp64 ((2 : ℝ) ^ k) =
      (2 : ℝ) ^ k := by
    have h52 : ((((2 : ℤ) ^ 52 : ℤ)) : ℝ) = (2 : ℝ) ^ (52 : ℤ) := by norm_num
    rw [hulp, hdiv, roundEven_intCast, h52, ← zpow_add₀ (by norm_num : (2 : ℝ) ≠ 0)]
    congr 1
    ring
  have hlt : (2 : ℝ) ^ k < (2 : ℝ) ^ (1024 : ℤ) :=
    zpow_lt_zpow_right₀ (by norm_num) (by omega)
  unfold round64
  rw [hy, if_neg (not_le.2 hlt), if_neg (by linarith)]

/-- The similarity of `[1]` with `[2^-600]`, whose squared norm underflows to zero, is
infinite: line 21 divides `2^-600` by zero. -/
theorem calculateSimilarity64_underflow :
    calculateSimilarity64 [1] [(2 : ℝ) ^ (-600 : ℤ)] = JSNumber.posInf := by
  have h : (2 : ℝ) ^ (-600 : ℤ) * (2 : ℝ) ^ (-600 : ℤ) = (2 : ℝ) ^ (-1200 : ℤ) := by
    rw [← zpow_add₀ (by norm_num : (2 : ℝ) ≠ 0)]
    norm_num
  have hpos : (0 : ℝ) < (2 : ℝ) ^ (-600 : ℤ) := by positivity
  have hloop : simLoop64 ⟨JSNumber.finite 0, JSNumber.finite 0, JSNumber.finite 0⟩
      (([1] : List ℝ).zip [(2 : ℝ) ^ (-600 : ℤ)]) =
      ⟨JSNumber.finite ((2 : ℝ) ^ (-600 : ℤ)), JSNumber.finite 1, JSNumber.finite 0⟩ := by
    simp only [List.zip_cons_cons, List.zip_nil_right, simLoop64, List.foldl_cons,
      List.foldl_nil, simStep64, JSNumber.mul64, JSNumber.add64, h, one_mul, mul_one,
      zero_add, round64_one, round64_zero, round64_zpow_underflow (-1200) (by norm_num),
      round64_zpow_normal (-600) (by norm_num) (by norm_num)]
  unfold calculateSimilarity64
  rw [if_neg (by simp), hloop]
  simp only [JSNumber.sqrt64_finite 1 (by norm_num), JSNumber.sqrt64_finite 0 (le_refl 0),
    Real.sqrt_one, Real.sqrt_zero, round64_one, round64_zero, JSNumber.mul64_finite, mul_zero]
  show (if (0 : ℝ) = 0 then (if (2 : ℝ) ^ (-600 : ℤ) = 0 then JSNumber.nan
    else if 0 < (2 : ℝ) ^ (-600 : ℤ) then JSNumber.posInf else JSNumber.negInf)
    else round64 ((2 : ℝ) ^ (-600 : ℤ) / 0)) = JSNumber.posInf
  rw [if_pos rfl, if_neg hpos.ne', if_pos hpos]

theorem calculateSimilarity64_one : calculateSimilarity64 [1] [1] = JSNumber.finite 1 := by
  norm_num [calculateSimilarity64, simLoop64, simStep64, JSNumber.add64, JSNumber.mul64,
    JSNumber.sqrt64, JSNumber.div64, round64_zero, round64_one]

/-! ### The claims that speak of floating-point tolerance -/

/-- C5, the claim as stated fails in binary64: the similarity with itself is `NaN`, not about
`1`, for the zero vector `[0, 0]`, for `[2^600]`, whose squared norm overflows, and for
`[2^-600]`, whose squared norm underflows to zero. -/
theorem calculateSimilarity64_self_counterexample :
    calculateSimilarity64 [0, 0] [0, 0] = JSNumber.nan ∧
      calculateSimilarity64 [(2 : ℝ) ^ (600 : ℤ)] [(2 : ℝ) ^ (600 : ℤ)] = JSNumber.nan ∧
      calculateSimilarity64 [(2 : ℝ) ^ (-600 : ℤ)] [(2 : ℝ) ^ (-600 : ℤ)] = JSNumber.nan :=
  ⟨calculateSimilarity64_self_of_norm_zero _ (squaredNorm64_of_zero [0, 0] (by simp)),
    calculateSimilarity64_self_of_norm_inf _ squaredNorm64_large,
    calculateSimilarity64_self_of_norm_zero _ squaredNorm64_small⟩

/-- C5 as amended: in binary64, for every vector `a` whose computed squared norm lies between
`2^-1021` and `2^1022`, clear of underflow and of overflow, `calculateSimilarity(a, a)` is a
finite number within `2^-50` of `1`; for the zero vector and the empty vector, and whenever
the computed squared norm is zero or infinite, it is `NaN`. -/
theorem calculateSimilarity64_self (a : List ℝ) :
    (∀ v : ℝ, squaredNorm64 a = JSNumber.finite v → (2 : ℝ) ^ (-1021 : ℤ) ≤ v →
        v ≤ (2 : ℝ) ^ (1022 : ℤ) →
        ∃ s : ℝ, calculateSimilarity64 a a = JSNumber.finite s ∧
          |s - 1| ≤ (2 : ℝ) ^ (-50 : ℤ)) ∧
      ((∀ x ∈ a, x = 0) → calculateSimilarity64 a a = JSNumber.nan) ∧
      ((squaredNorm64 a = JSNumber.finite 0 ∨ squaredNorm64 a = JSNumber.posInf) →
        calculateSimilarity64 a a = JSNumber.nan) := by
  refine ⟨fun v h hlo hhi => calculateSimilarity64_self_of_norm_normal a v h hlo hhi,
    fun hz => calculateSimilarity64_self_of_norm_zero a (squaredNorm64_of_zero a hz), ?_⟩
  rintro (h | h)
  · exact calculateSimilarity64_self_of_norm_zero a h
  · exact calculateSimilarity64_self_of_norm_inf a h

/-- C5 as amended at the vector `[1, 1]`, of computed squared norm `2`, and at the empty
vector. -/
theorem calculateSimilarity64_self_witness :
    (∃ s : ℝ, calculateSimilarity64 [1, 1] [1, 1] = JSNumber.finite s ∧
        |s - 1| ≤ (2 : ℝ) ^ (-50 : ℤ)) ∧
      calculateSimilarity64 [] [] = JSNumber.nan :=
  ⟨(calculateSimilarity64_self [1, 1]).1 2 squaredNorm64_ones
      (le_trans (zpow_le_zpow_right₀ (by norm_num) (by norm_num : (-1021 : ℤ) ≤ 1))
        (by norm_num))
      (le_trans (by norm_num) (zpow_le_zpow_right₀ (by norm_num) (by norm_num : (1 : ℤ) ≤ 1022))),
    (calculateSimilarity64_self []).2.1 (by simp)⟩

/-- C3, the claim as stated fails in binary64.  With the same vector stored for alice and for
bob, the query with bob's vector is answered with alice, the first in iteration order; the
query with the stored zero vector of carol is answered "Face not recognized"; so is the query
with the stored vector `[2^600]` of dave, whose squared norm overflows; and with erin's
`[2^-600]` stored before frank's `[1]`, the query with frank's vector is answered with erin
and the similarity `Infinity`, the squared norm of erin's vector underflowing to zero. -/
theorem login64_identical_vector_counterexample :
    login64 (JSValue.array [1, 0]) [⟨"alice", "a", [1, 0], 0⟩, ⟨"bob", "b", [1, 0], 1⟩] =
        LoginResponse.success "alice" (JSNumber.finite 1) ∧
      login64 (JSValue.array [1, 0]) [⟨"alice", "a", [1, 0], 0⟩, ⟨"bob", "b", [1, 0], 1⟩] ≠
        LoginResponse.success "bob" (JSNumber.finite 1) ∧
      login64 (JSValue.array [0, 0]) [⟨"carol", "c", [0, 0], 0⟩] = LoginResponse.unauthorized ∧
      login64 (JSValue.array [(2 : ℝ) ^ (600 : ℤ)]) [⟨"dave", "d", [(2 : ℝ) ^ (600 : ℤ)], 0⟩] =
        LoginResponse.unauthorized ∧
      login64 (JSValue.array [1])
          [⟨"erin", "e", [(2 : ℝ) ^ (-600 : ℤ)], 0⟩, ⟨"frank", "f", [1], 1⟩] =
        LoginResponse.success "erin" JSNumber.posInf := by
  obtain ⟨t, ht, _, ht1⟩ := threshold64_spec
  have h50 : (0 : ℝ) < (2 : ℝ) ^ (-50 : ℤ) := by positivity
  have hlogin : login64 (JSValue.array [1, 0])
      [⟨"alice", "a", [1, 0], 0⟩, ⟨"bob", "b", [1, 0], 1⟩] =
      LoginResponse.success "alice" (JSNumber.finite 1) := by
    have hgt : (JSNumber.finite 1).gt threshold64 := by
      rw [ht, JSNumber.finite_gt_finite]
      linarith
    have hgt0 : (JSNumber.finite 1).gt (JSNumber.finite 0) := by
      rw [JSNumber.finite_gt_finite]
      norm_num
    rw [login64_array]
    simp [loginScan64, loginStep64, calculateSimilarity64_unit, hgt, hgt0, JSNumber.gt_irrefl]
  have hnan : ∀ a : List ℝ, calculateSimilarity64 a a = JSNumber.nan → ∀ name img now,
      login64 (JSValue.array a) [⟨name, img, a, now⟩] = LoginResponse.unauthorized := by
    intro a ha name img now
    rcases login64_cases a [⟨name, img, a, now⟩] with
      ⟨hres, _⟩ | ⟨pre, e, post, hsplit, _, hthr, _, _⟩
    · exact hres
    · have he : e ∈ [(⟨name, img, a, now⟩ : User)] := by
        rw [hsplit]
        simp
      rw [List.mem_singleton.1 he] at hthr
      change (calculateSimilarity64 a a).gt threshold64 at hthr
      rw [ha] at hthr
      exact absurd hthr (JSNumber.not_nan_gt _)
  refine ⟨hlogin, ?_, ?_, ?_, ?_⟩
  · rw [hlogin]
    intro h
    injection h with hname _
    exact absurd hname (by decide)
  · exact hnan _ (calculateSimilarity64_self_of_norm_zero _
      (squaredNorm64_of_zero [0, 0] (by simp))) _ _ _
  · exact hnan _ (calculateSimilarity64_self_of_norm_inf _ squaredNorm64_large) _ _ _
  · rw [login64_array]
    simp only [loginScan64, List.foldl_cons, List.foldl_nil, loginStep64,
      calculateSimilarity64_underflow, calculateSimilarity64_one, ht, JSNumber.gt, and_self,
      if_true, false_and, if_false]

/-- C3 as amended: in binary64, for every store and every user `e` in it whose vector has a
computed squared norm between `2^-1021` and `2^1022`, the login with a vector identical to
`e`'s is successful; the returned similarity is the greatest in the store, not below that of
`e`'s vector with itself, which is within `2^-50` of `1`; the returned username is that of the
first user in iteration order attaining the greatest similarity, and it is `e`'s whenever
`e`'s similarity is greater than that of every user of another username. -/
theorem login64_identical_vector (users : List User) (e : User) (he : e ∈ users) (v : ℝ)
    (hnorm : squaredNorm64 e.features = JSNumber.finite v)
    (hlo : (2 : ℝ) ^ (-1021 : ℤ) ≤ v) (hhi : v ≤ (2 : ℝ) ^ (1022 : ℤ)) :
    ∃ pre m post, users = pre ++ m :: post ∧
      login64 (JSValue.array e.features) users =
        LoginResponse.success m.username (calculateSimilarity64 e.features m.features) ∧
      (∃ s : ℝ, calculateSimilarity64 e.features e.features = JSNumber.finite s ∧
        |s - 1| ≤ (2 : ℝ) ^ (-50 : ℤ)) ∧
      (calculateSimilarity64 e.features e.features).le
        (calculateSimilarity64 e.features m.features) ∧
      (∀ u ∈ users, calculateSimilarity64 e.features u.features = JSNumber.nan ∨
        (calculateSimilarity64 e.features u.features).le
          (calculateSimilarity64 e.features m.features)) ∧
      (∀ u ∈ pre, calculateSimilarity64 e.features u.features ≠
        calculateSimilarity64 e.features m.features) ∧
      ((∀ u ∈ users, u.username ≠ e.username →
          (calculateSimilarity64 e.features e.features).gt
            (calculateSimilarity64 e.features u.features)) → m.username = e.username) := by
  obtain ⟨s, hs, hs1⟩ := calculateSimilarity64_self_of_norm_normal e.features v hnorm hlo hhi
  obtain ⟨t, ht, _, ht1⟩ := threshold64_spec
  have hself : (calculateSimilarity64 e.features e.features).gt threshold64 := by
    rw [hs, ht, JSNumber.finite_gt_finite]
    linarith [(abs_le.1 hs1).1]
  rcases login64_cases e.features users with
    ⟨_, hall⟩ | ⟨pre, m, post, hsplit, hres, hthr, hall, hfirst⟩
  · exact absurd hself (hall e he)
  · have hm : calculateSimilarity64 e.features m.features ≠ JSNumber.nan := by
      intro hnan
      rw [hnan] at hthr
      exact JSNumber.not_nan_gt _ hthr
    have hle : ∀ u ∈ users, calculateSimilarity64 e.features u.features = JSNumber.nan ∨
        (calculateSimilarity64 e.features u.features).le
          (calculateSimilarity64 e.features m.features) :=
      fun u hu => JSNumber.nan_or_le_of_not_gt (hall u hu) hm
    refine ⟨pre, m, post, hsplit, hres, ⟨s, hs, hs1⟩, ?_, hle, hfirst, ?_⟩
    · rcases hle e he with hnan | h
      · rw [hs] at hnan
        cases hnan
      · exact h
    · intro hgreater
      by_contra hne
      have hmem : m ∈ users := by
        rw [hsplit]
        simp
      exact hall e he (hgreater m hmem hne)

/-- C3 as amended at the store of alice `[0, 1]` and bob `[1, 1]`, queried with bob's vector,
of computed squared norm `2`. -/
theorem login64_identical_vector_witness :
    ∃ pre m post,
      ([⟨"alice", "a", [0, 1], 0⟩, ⟨"bob", "b", [1, 1], 1⟩] : List User) = pre ++ m :: post ∧
      login64 (JSValue.array [1, 1]) [⟨"alice", "a", [0, 1], 0⟩, ⟨"bob", "b", [1, 1], 1⟩] =
        LoginResponse.success m.username (calculateSimilarity64 [1, 1] m.features) ∧
      (∃ s : ℝ, calculateSimilarity64 [1, 1] [1, 1] = JSNumber.finite s ∧
        |s - 1| ≤ (2 : ℝ) ^ (-50 : ℤ)) ∧
      (calculateSimilarity64 [1, 1] [1, 1]).le (calculateSimilarity64 [1, 1] m.features) ∧
      (∀ u ∈ ([⟨"alice", "a", [0, 1], 0⟩, ⟨"bob", "b", [1, 1], 1⟩] : List User),
        calculateSimilarity64 [1, 1] u.features = JSNumber.nan ∨
          (calculateSimilarity64 [1, 1] u.features).le
            (calculateSimilarity64 [1, 1] m.features)) ∧
      (∀ u ∈ pre, calculateSimilarity64 [1, 1] u.features ≠
        calculateSimilarity64 [1, 1] m.features) ∧
      ((∀ u ∈ ([⟨"alice", "a", [0, 1], 0⟩, ⟨"bob", "b", [1, 1], 1⟩] : List User),
          u.username ≠ "bob" →
          (calculateSimilarity64 [1, 1] [1, 1]).gt (calculateSimilarity64 [1, 1] u.features)) →
        m.username = "bob") :=
  login64_identical_vector [⟨"alice", "a", [0, 1], 0⟩, ⟨"bob", "b", [1, 1], 1⟩]
    ⟨"bob", "b", [1, 1], 1⟩ (by simp) 2 squaredNorm64_ones
    (le_trans (zpow_le_zpow_right₀ (by norm_num) (by norm_num : (-1021 : ℤ) ≤ 1)) (by norm_num))
    (le_trans (by norm_num) (zpow_le_zpow_right₀ (by norm_num) (by norm_num : (1 : ℤ) ≤ 1022)))

end
